import Mathlib

/-!
Verification of the pymap mailbox-session core against its specification.

The development shallowly embeds two subsystems:

* the IMAP SEARCH-key model and parser (`src/pymap/parsing/specials/searchkey.py`),
* the session engine (`src/pymap/backend/session.py`, class `BaseSession`).

Collaborator modules that are not part of the source tree (the parsing
primitives, the flag classes, the selected-mailbox view and the abstract
mailbox backend) are modelled from the specification; each such definition
carries a doc comment starting with "Modelled from the spec:".
-/

set_option maxHeartbeats 1000000

namespace Pymap

/-! ## Search-key data model (from searchkey.py) -/

/-- Modelled from the spec: fetchattr.py is not in src/. The fetch-requirement
annotation of a search key, ordered NONE < METADATA < HEADERS < BODY, with
reduction being max (spec section 4.6). -/
inductive FetchRequirement : Type where
  | NONE | METADATA | HEADERS | BODY
deriving DecidableEq, Repr

/-- Numeric rank of a fetch requirement, used to define the max reduction. -/
def FetchRequirement.rank : FetchRequirement → Nat
  | .NONE => 0
  | .METADATA => 1
  | .HEADERS => 2
  | .BODY => 3

/-- Maximum of two fetch requirements by rank. -/
def FetchRequirement.fmax (a b : FetchRequirement) : FetchRequirement :=
  if a.rank ≤ b.rank then b else a

/-- Modelled from the spec: FetchRequirement.reduce is the reduction (max) of a
collection of requirements (spec section 4.6), with NONE for the empty one. -/
def FetchRequirement.reduce (l : List FetchRequirement) : FetchRequirement :=
  l.foldl FetchRequirement.fmax FetchRequirement.NONE

/-- Modelled from the spec: flag.py is not in src/. A flag is an atom possibly
prefixed by a backslash; system flags are the backslash-prefixed ones. -/
structure Flag : Type where
  value : String
deriving DecidableEq, Repr

/-- Whether a flag is a system flag (its value starts with a backslash). -/
def Flag.isSystem (f : Flag) : Bool :=
  match f.value.data with
  | '\\' :: _ => true
  | _ => false

/-- One element of an IMAP sequence set: a single value or a range, where
`Option.none` stands for the star. -/
inductive SeqElem : Type where
  | single (v : Option Nat)
  | range (a b : Option Nat)
deriving DecidableEq, Repr

/-- Modelled from the spec: sequenceset.py is not in src/. An IMAP set
expression over UIDs or sequence numbers, possibly containing the star
(glossary), together with the uid-mode bit set by the UID search key. -/
structure SequenceSet : Type where
  elems : List SeqElem
  uid : Bool
deriving DecidableEq, Repr

/-- Modelled from the spec: the date payload of a date-valued search key,
parsed from the IMAP date format day-month-year (spec section 4.6). -/
structure SKDate : Type where
  day : Nat
  month : Nat
  year : Nat
deriving DecidableEq, Repr

mutual

/-- A search key as built by SearchKey.parse: an uppercase keyword tag, a
typed filter payload and the inverse bit (searchkey.py, class SearchKey). -/
inductive SearchKey : Type where
  | mk (key : String) (filt : SKFilter) (inverse : Bool)

/-- The typed filter payload of a search key (searchkey.py, _FilterType):
one of nothing, sequence set, set of sub-keys, key pair, flag, datetime,
integer, string, or a header field/value pair. -/
inductive SKFilter : Type where
  | nofilter
  | seqset (s : SequenceSet)
  | keyset (ks : List SearchKey)
  | pair (k1 k2 : SearchKey)
  | flag (f : Flag)
  | date (d : SKDate)
  | num (n : Nat)
  | str (s : String)
  | header (field value : String)

end

/-- The keyword tag of a search key (searchkey.py, SearchKey.value). -/
def SearchKey.key : SearchKey → String
  | .mk k _ _ => k

/-- The filter payload of a search key. -/
def SearchKey.filt : SearchKey → SKFilter
  | .mk _ f _ => f

/-- The inverse bit of a search key. -/
def SearchKey.inverse : SearchKey → Bool
  | .mk _ _ i => i

/-- Copy of a search key with the inverse bit replaced. -/
def SearchKey.setInverse : SearchKey → Bool → SearchKey
  | .mk k f _, i => .mk k f i

/-- Copy of the search key with the inverse bit flipped
(searchkey.py, SearchKey.not_inverse). -/
def SearchKey.notInverse : SearchKey → SearchKey
  | .mk k f i => .mk k f (!i)

mutual

/-- The data required to fulfill a search key (searchkey.py,
SearchKey.requirement).  The KEYSET and OR branches cast the filter payload
(filter_key_set, filter_key_or); a payload of the wrong shape raises in the
source, which the embedding renders as none. -/
def SearchKey.requirement : SearchKey → Option FetchRequirement
  | .mk key f _ =>
    if key = "ALL" then some .NONE
    else if key = "KEYSET" then
      match f with
      | .keyset ks =>
        match reqList ks with
        | some rs => some (FetchRequirement.reduce rs)
        | none => none
      | _ => none
    else if key = "OR" then
      match f with
      | .pair k1 k2 =>
        match k1.requirement, k2.requirement with
        | some r1, some r2 => some (FetchRequirement.reduce [r1, r2])
        | _, _ => none
      | _ => none
    else if key = "SENTBEFORE" ∨ key = "SENTON" ∨ key = "SENTSINCE" ∨
            key = "BCC" ∨ key = "CC" ∨ key = "FROM" ∨ key = "SUBJECT" ∨
            key = "TO" ∨ key = "HEADER" then some .HEADERS
    else if key = "BODY" ∨ key = "TEXT" then some .BODY
    else some .METADATA

/-- Requirements of a list of sub-keys, none if any sub-key fails. -/
def reqList : List SearchKey → Option (List FetchRequirement)
  | [] => some []
  | k :: ks =>
    match k.requirement, reqList ks with
    | some r, some rs => some (r :: rs)
    | _, _ => none

end

/-- The spec's fetch-requirement table (spec section 4.6), amended in one
place: a key tagged SEQSET requires METADATA, not NONE, because the source
only returns NONE for the ALL tag.  Children of KEYSET and OR contribute
through their own requirement. -/
def specRequirement : SearchKey → Option FetchRequirement
  | .mk key f _ =>
    if key = "ALL" then some .NONE
    else if key = "SEQSET" then some .METADATA
    else if key = "KEYSET" then
      match f with
      | .keyset ks =>
        match reqList ks with
        | some rs => some (FetchRequirement.reduce rs)
        | none => none
      | _ => none
    else if key = "OR" then
      match f with
      | .pair k1 k2 =>
        match k1.requirement, k2.requirement with
        | some r1, some r2 => some (FetchRequirement.reduce [r1, r2])
        | _, _ => none
      | _ => none
    else if key = "SENTBEFORE" ∨ key = "SENTON" ∨ key = "SENTSINCE" ∨
            key = "BCC" ∨ key = "CC" ∨ key = "FROM" ∨ key = "SUBJECT" ∨
            key = "TO" ∨ key = "HEADER" then some .HEADERS
    else if key = "BODY" ∨ key = "TEXT" then some .BODY
    else some .METADATA

/-! ## Parsing primitives

The primitive token parsers (Space, Atom, QuotedString, AString, Number,
Flag, SequenceSet and the date format) live in modules that are not in
src/, so they are modelled from the spec; SearchKey.parse itself is
translated from searchkey.py.  Buffers are lists of characters; a parser
returns the parsed value together with the remaining buffer. -/

/-- Parse error kinds (spec section 7): NotParseable is an ordinary grammar
violation, UnexpectedType propagates out of list parsing unconditionally. -/
inductive PErr : Type where
  | notParseable
  | unexpectedType
deriving DecidableEq, Repr

/-- Drop leading spaces (the optional whitespace skip at the start of
SearchKey.parse). -/
def skipSpaces (b : List Char) : List Char := b.dropWhile (fun c => c = ' ')

/-- Modelled from the spec: Space parses one or more space characters. -/
def parseSpace : List Char → Option (List Char)
  | c :: rest => if c = ' ' then some (skipSpaces rest) else none
  | [] => none

/-- The case-insensitive NOT-prefix pattern of SearchKey.parse
(regex NOT followed by one or more spaces); returns the buffer after the
match. -/
def stripNot : List Char → Option (List Char)
  | c1 :: c2 :: c3 :: c4 :: rest =>
    if (c1 = 'N' ∨ c1 = 'n') ∧ (c2 = 'O' ∨ c2 = 'o') ∧ (c3 = 'T' ∨ c3 = 't') ∧
        c4 = ' ' then
      some (skipSpaces rest)
    else none
  | _ => none

/-- Modelled from the spec: the characters an IMAP atom may contain
(no space, parenthesis, quote, backslash, star, percent, colon or comma). -/
def isAtomChar (c : Char) : Bool :=
  c.isAlpha || c.isDigit || c = '-' || c = '.' || c = '_' || c = '+' ||
    c = '&' || c = '=' || c = '$' || c = '!' || c = '#'

/-- Modelled from the spec: Atom parses a nonempty run of atom characters. -/
def atomSpan (b : List Char) : Option (List Char × List Char) :=
  match b with
  | c :: _ => if isAtomChar c then
      some (b.takeWhile isAtomChar, b.dropWhile isAtomChar)
    else none
  | [] => none

/-- Uppercase a single ASCII character (the .upper() applied to the atom). -/
def upChar (c : Char) : Char :=
  if 'a' ≤ c ∧ c ≤ 'z' then Char.ofNat (c.toNat - 32) else c

/-- Uppercase a character list. -/
def upChars (l : List Char) : List Char := l.map upChar

/-- Modelled from the spec: the inside of a quoted string up to the closing
quote (escape sequences are not modelled; no claim exercises them). -/
def quotedSpan : List Char → Option (List Char × List Char)
  | [] => none
  | c :: rest =>
    if c = '"' then some ([], rest)
    else (quotedSpan rest).map fun p => (c :: p.1, p.2)

/-- Modelled from the spec: QuotedString parses a double-quoted string. -/
def parseQuoted : List Char → Option (List Char × List Char)
  | c :: rest => if c = '"' then quotedSpan rest else none
  | [] => none

/-- Modelled from the spec: AString parses an atom or a quoted string
(literals are not modelled). -/
def parseAString (b : List Char) : Option (List Char × List Char) :=
  match b with
  | '"' :: _ => parseQuoted b
  | _ => atomSpan b

/-- The characters a sequence-set literal may contain. -/
def isSeqChar (c : Char) : Bool := c.isDigit || c = '*' || c = ':' || c = ','

/-- Split a character list on a separator character. -/
def splitOnChar (sep : Char) : List Char → List (List Char)
  | [] => [[]]
  | c :: rest =>
    let r := splitOnChar sep rest
    if c = sep then [] :: r
    else
      match r with
      | h :: t => (c :: h) :: t
      | [] => [[c]]

/-- Numeric value of a digit run. -/
def digitsVal (l : List Char) : Nat :=
  l.foldl (fun a c => a * 10 + (c.toNat - 48)) 0

/-- One endpoint of a sequence-set element: the star or a nonzero number. -/
def parseSeqVal : List Char → Option (Option Nat)
  | ['*'] => some none
  | [] => none
  | c :: rest =>
    if c.isDigit ∧ c ≠ '0' ∧ rest.all Char.isDigit then
      some (some (digitsVal (c :: rest)))
    else none

/-- One comma-separated part of a sequence set: a value or a range. -/
def parseSeqElem (part : List Char) : Option SeqElem :=
  match splitOnChar ':' part with
  | [v] => (parseSeqVal v).map .single
  | [a, b] =>
    match parseSeqVal a, parseSeqVal b with
    | some x, some y => some (.range x y)
    | _, _ => none
  | _ => none

/-- All comma-separated parts of a sequence set. -/
def parseSeqElems : List (List Char) → Option (List SeqElem)
  | [] => some []
  | p :: ps =>
    match parseSeqElem p, parseSeqElems ps with
    | some e, some es => some (e :: es)
    | _, _ => none

/-- Modelled from the spec: SequenceSet.parse takes the maximal run of
sequence-set characters and validates it as an IMAP sequence set; the uid
flag comes from the parsing parameters. -/
def parseSeqSet (uid : Bool) (b : List Char) : Option (SequenceSet × List Char) :=
  match b with
  | c :: _ =>
    if isSeqChar c then
      match parseSeqElems (splitOnChar ',' (b.takeWhile isSeqChar)) with
      | some es => some (⟨es, uid⟩, b.dropWhile isSeqChar)
      | none => none
    else none
  | [] => none

/-- Modelled from the spec: Number parses a nonempty digit run. -/
def parseNumber (b : List Char) : Option (Nat × List Char) :=
  match b with
  | c :: _ =>
    if c.isDigit then
      some (digitsVal (b.takeWhile Char.isDigit), b.dropWhile Char.isDigit)
    else none
  | [] => none

/-- Modelled from the spec: Flag.parse reads an optional backslash followed
by an atom. -/
def parseFlag (b : List Char) : Option (Flag × List Char) :=
  match b with
  | [] => none
  | c :: rest =>
    if c = '\\' then
      match atomSpan rest with
      | some (cs, r) => some (⟨String.mk ('\\' :: cs)⟩, r)
      | none => none
    else
      match atomSpan (c :: rest) with
      | some (cs, r) => some (⟨String.mk cs⟩, r)
      | none => none

/-- Month number of a three-letter month abbreviation, case-insensitively. -/
def monthNum (l : List Char) : Option Nat :=
  let s := String.mk (upChars l)
  if s = "JAN" then some 1 else if s = "FEB" then some 2
  else if s = "MAR" then some 3 else if s = "APR" then some 4
  else if s = "MAY" then some 5 else if s = "JUN" then some 6
  else if s = "JUL" then some 7 else if s = "AUG" then some 8
  else if s = "SEP" then some 9 else if s = "OCT" then some 10
  else if s = "NOV" then some 11 else if s = "DEC" then some 12
  else none

/-- Days in a month, with the Gregorian leap rule. -/
def daysInMonth (m y : Nat) : Nat :=
  if m = 2 then (if y % 4 = 0 ∧ (y % 100 ≠ 0 ∨ y % 400 = 0) then 29 else 28)
  else if m = 4 ∨ m = 6 ∨ m = 9 ∨ m = 11 then 30
  else 31

/-- Modelled from the spec: the day-month-year date format of the date
search keys, validated the way strptime validates it (one or two day
digits, case-insensitive month abbreviation, up to four year digits, and
the whole token consumed). -/
def parseDateChars (l : List Char) : Option SKDate :=
  let ds := l.takeWhile Char.isDigit
  if 1 ≤ ds.length ∧ ds.length ≤ 2 then
    match l.dropWhile Char.isDigit with
    | '-' :: m1 :: m2 :: m3 :: r2 =>
      match monthNum [m1, m2, m3], r2 with
      | some m, '-' :: ys =>
        let yd := ys.takeWhile Char.isDigit
        if 1 ≤ yd.length ∧ yd.length ≤ 4 ∧ ys.dropWhile Char.isDigit = [] then
          let d := digitsVal ds
          let y := digitsVal yd
          if 1 ≤ d ∧ d ≤ daysInMonth m y ∧ 1 ≤ y ∧ y ≤ 9999 then
            some ⟨d, m, y⟩
          else none
        else none
      | _, _ => none
    | _ => none
  else none

/-- The date filter of SearchKey._parse_date_filter: an atom or quoted
string whose content must be a valid date. -/
def parseDateFilter (b : List Char) : Option (SKDate × List Char) :=
  match parseAString b with
  | some (cs, r) =>
    match parseDateChars cs with
    | some d => some (d, r)
    | none => none
  | none => none

/-! ## SearchKey.parse (translated from searchkey.py)

The parser is embedded with a fuel parameter that bounds the recursion
depth (the recursion of the source is on OR operands and parenthesized key
lists); fuel 2*length+4 is always sufficient, which the fuel-irrelevance
result below makes precise. -/

/-- Type of the embedded SearchKey.parse: the boolean is the uid flag of
the parsing parameters. -/
abbrev KParser : Type := Bool → List Char → Except PErr (SearchKey × List Char)

/-- Type of the embedded key-list parser (ListP with SearchKey elements). -/
abbrev LParser : Type :=
  Bool → List Char → Except PErr (List SearchKey × List Char)

/-- The nullary search keywords (searchkey.py line 174). -/
def nullaryKeys : List String :=
  ["ALL", "ANSWERED", "DELETED", "FLAGGED", "NEW", "OLD", "RECENT", "SEEN",
   "UNANSWERED", "UNDELETED", "UNFLAGGED", "UNSEEN", "DRAFT", "UNDRAFT"]

/-- The string-valued search keywords (searchkey.py line 178). -/
def stringKeys : List String :=
  ["BCC", "BODY", "CC", "FROM", "SUBJECT", "TEXT", "TO"]

/-- The date-valued search keywords (searchkey.py line 183). -/
def dateKeys : List String :=
  ["BEFORE", "ON", "SINCE", "SENTBEFORE", "SENTON", "SENTSINCE"]

/-- Wrap an Option-valued primitive as a parser failing with NotParseable. -/
def liftO {α : Type} (f : List Char → Option (α × List Char))
    (b : List Char) : Except PErr (α × List Char) :=
  match f b with
  | some p => .ok p
  | none => .error .notParseable

/-- The continuation of a keyword branch: wrap the parsed argument into
the search key. -/
def branchCont {α : Type} (mkk : α → SearchKey) :
    Except PErr (α × List Char) → Except PErr (SearchKey × List Char)
  | .ok (a, b2) => .ok (mkk a, b2)
  | .error e => .error e

/-- A keyword branch of SearchKey.parse: one space, then the branch's
argument parser, then the key construction. -/
def branchP {α : Type} (sub : List Char → Except PErr (α × List Char))
    (mkk : α → SearchKey) (after : List Char) :
    Except PErr (SearchKey × List Char) :=
  match parseSpace after with
  | none => .error .notParseable
  | some b1 => branchCont mkk (sub b1)

/-- The KEYWORD and UNKEYWORD argument: a flag that must not be a system
flag (searchkey.py lines 188 to 193). -/
def keywordSub (b : List Char) : Except PErr (Flag × List Char) :=
  match parseFlag b with
  | some (fl, b2) =>
    if fl.isSystem then .error .notParseable else .ok (fl, b2)
  | none => .error .notParseable

/-- The HEADER argument: two astrings separated by a space. -/
def headerSub (b : List Char) : Except PErr ((String × String) × List Char) :=
  match parseAString b with
  | none => .error .notParseable
  | some (fs, b2) =>
    match parseSpace b2 with
    | none => .error .notParseable
    | some b3 =>
      match parseAString b3 with
      | some (vs, b4) => .ok ((String.mk fs, String.mk vs), b4)
      | none => .error .notParseable

/-- The OR argument: two recursively parsed sub-keys separated by a
space. -/
def orSub (pk : KParser) (uid : Bool) (b : List Char) :
    Except PErr ((SearchKey × SearchKey) × List Char) :=
  match pk uid b with
  | .error e => .error e
  | .ok (k1, r1) =>
    match parseSpace r1 with
    | none => .error .notParseable
    | some r2 =>
      match pk uid r2 with
      | .error e => .error e
      | .ok (k2, r3) => .ok ((k1, k2), r3)

/-- The keyword dispatch of SearchKey.parse on the uppercased atom, in the
order of the source (searchkey.py lines 174 to 214). -/
def keyDispatch (pk : KParser) (uid : Bool) (key : String) (after : List Char) :
    Except PErr (SearchKey × List Char) :=
  if key ∈ nullaryKeys then .ok (.mk key .nofilter false, after)
  else if key ∈ stringKeys then
    branchP (liftO parseAString)
      (fun s => .mk key (.str (String.mk s)) false) after
  else if key ∈ dateKeys then
    branchP (liftO parseDateFilter) (fun d => .mk key (.date d) false) after
  else if key = "KEYWORD" ∨ key = "UNKEYWORD" then
    branchP keywordSub (fun fl => .mk key (.flag fl) false) after
  else if key = "LARGER" ∨ key = "SMALLER" then
    branchP (liftO parseNumber) (fun n => .mk key (.num n) false) after
  else if key = "UID" then
    branchP (liftO (parseSeqSet true))
      (fun ss => .mk "SEQSET" (.seqset ss) false) after
  else if key = "HEADER" then
    branchP headerSub (fun p => .mk key (.header p.1 p.2) false) after
  else if key = "OR" then
    branchP (orSub pk uid) (fun p => .mk "OR" (.pair p.1 p.2) false) after
  else .error .notParseable

/-- The body of SearchKey.parse after whitespace and NOT handling: try a
sequence set, then a parenthesized key list, then dispatch on the
uppercased atom.  The constructed keys carry inverse false; the caller
applies the inverse bit, which is equivalent to the source passing the
inverse flag to each constructor. -/
def coreBody (pk : KParser) (pl : LParser) (uid : Bool) (b : List Char) :
    Except PErr (SearchKey × List Char) :=
  match parseSeqSet uid b with
  | some (ss, rest) => .ok (.mk "SEQSET" (.seqset ss) false, rest)
  | none =>
    match b with
    | [] => .error .notParseable
    | c :: rest =>
      if c = '(' then
        match pl uid rest with
        | .ok (ks, rest2) => .ok (.mk "KEYSET" (.keyset ks) false, rest2)
        | .error e => .error e
      else
        match atomSpan (c :: rest) with
        | none => .error .notParseable
        | some (cs, after) => keyDispatch pk uid (String.mk (upChars cs)) after

/-- One level of SearchKey.parse: skip optional whitespace, strip the NOT
prefix, run the core body, and set the inverse bit of the resulting key. -/
def keyBody (pk : KParser) (pl : LParser) (uid : Bool) (buf : List Char) :
    Except PErr (SearchKey × List Char) :=
  match stripNot (skipSpaces buf) with
  | some r =>
    (match coreBody pk pl uid r with
     | .ok (k, rest) => .ok (k.setInverse true, rest)
     | .error e => .error e)
  | none =>
    match coreBody pk pl uid (skipSpaces buf) with
    | .ok (k, rest) => .ok (k.setInverse false, rest)
    | .error e => .error e

/-- Modelled from the spec: ListP over SearchKey elements, after the
opening parenthesis: either the closing parenthesis ends the list, or an
element is parsed; a failing element surfaces as UnexpectedType, which
propagates out of list parsing unconditionally (spec section 7). -/
def listBody (pk : KParser) (pl : LParser) (uid : Bool) (buf : List Char) :
    Except PErr (List SearchKey × List Char) :=
  match skipSpaces buf with
  | ')' :: rest => .ok ([], rest)
  | b1 =>
    match pk uid b1 with
    | .error _ => .error .unexpectedType
    | .ok (k, r) =>
      match pl uid r with
      | .ok (ks, r2) => .ok (k :: ks, r2)
      | .error e => .error e

/-- The fuel-indexed pair of mutually recursive parsers: the key parser and
the key-list parser. -/
def parsePair : Nat → KParser × LParser
  | 0 => (fun _ _ => .error .notParseable, fun _ _ => .error .notParseable)
  | n + 1 =>
    (keyBody (parsePair n).1 (parsePair n).2,
     listBody (parsePair n).1 (parsePair n).2)

/-- The fuel-indexed key parser. -/
def pkF (n : Nat) : KParser := (parsePair n).1

/-- The fuel-indexed key-list parser. -/
def plF (n : Nat) : LParser := (parsePair n).2

/-- SearchKey.parse: the embedded parser at its canonical (sufficient)
fuel. -/
def SearchKey.parse (uid : Bool) (buf : List Char) :
    Except PErr (SearchKey × List Char) :=
  pkF (2 * buf.length + 4) uid buf

/-! ## Session engine (translated from backend/session.py)

The collaborators of BaseSession (the mailbox backend, the selected view,
the flag classes) live in modules that are not in src/ and are modelled
from the spec; the command handlers themselves are translated from
session.py.  Each handler returns its result (or error), the store after
the call, and the trace of backend calls it made. -/

/-- The Seen system flag. -/
def Seen : Flag := ⟨"\\Seen"⟩

/-- The Deleted system flag. -/
def Deleted : Flag := ⟨"\\Deleted"⟩

/-- The Recent session flag. -/
def Recent : Flag := ⟨"\\Recent"⟩

/-- Modelled from the spec: flags.py is not in src/.  The three STORE
modes. -/
inductive FlagOp : Type where
  | replace
  | add
  | remove
deriving DecidableEq, Repr

/-- Modelled from the spec: the message abstraction (spec section 6) with
uid, permanent flags and the recent bit; the loadable bit models whether
find yields the loaded message or None. -/
structure Msg : Type where
  uid : Nat
  permanentFlags : Finset Flag
  recent : Bool
  loadable : Bool
deriving DecidableEq

/-- Modelled from the spec: the per-session selected view (spec section 3):
name, read-only bit, uid validity, next uid, the view map, the
session-flag table with its recent subset, the permitted permanent-flag
set and the tombstone bit. -/
structure SelectedView : Type where
  name : String
  readonly : Bool
  uidValidity : Nat
  nextUid : Nat
  viewMap : List (Nat × Finset Flag)
  sessionTable : List (Nat × Finset Flag)
  recentUids : Finset Nat
  permanentFlags : Finset Flag
  deleted : Bool
deriving DecidableEq

/-- Modelled from the spec: set_deleted marks the view as a tombstone. -/
def SelectedView.setDeleted (v : SelectedView) : SelectedView :=
  { v with deleted := true }

/-- Replace or append an entry of a uid-keyed table. -/
def upsert (l : List (Nat × Finset Flag)) (uid : Nat) (fs : Finset Flag) :
    List (Nat × Finset Flag) :=
  if l.any (fun p => p.1 = uid) then
    l.map (fun p => if p.1 = uid then (uid, fs) else p)
  else l ++ [(uid, fs)]

/-- Lookup in a uid-keyed table, empty set when absent. -/
def lookupD (l : List (Nat × Finset Flag)) (uid : Nat) : Finset Flag :=
  match l.find? (fun p => p.1 = uid) with
  | some p => p.2
  | none => ∅

/-- Modelled from the spec: add_messages records one (uid, permanent
flags) pair in the view map. -/
def SelectedView.addMessage (v : SelectedView) (uid : Nat)
    (fs : Finset Flag) : SelectedView :=
  { v with viewMap := upsert v.viewMap uid fs }

/-- Modelled from the spec: session_flags.add_recent adds the uid to the
session-recent set. -/
def SelectedView.addRecent (v : SelectedView) (uid : Nat) : SelectedView :=
  { v with recentUids := insert uid v.recentUids }

/-- Modelled from the spec: the plain application of a STORE mode to a
flag set, used for session flags, which take the full requested set. -/
def FlagOp.apply (op : FlagOp) (old operand : Finset Flag) : Finset Flag :=
  match op with
  | .replace => operand
  | .add => old ∪ operand
  | .remove => old \ operand

/-- Modelled from the spec: Message.update_flags applies the mode to the
permanent flags only for the permitted flags (spec section 4.5), and an
empty permitted set leaves the permanent flags unchanged (spec section
8). -/
def Msg.updateFlags (m : Msg) (permitted : Finset Flag) (op : FlagOp) : Msg :=
  match op with
  | .replace =>
    if permitted = ∅ then m else { m with permanentFlags := permitted }
  | .add => { m with permanentFlags := m.permanentFlags ∪ permitted }
  | .remove => { m with permanentFlags := m.permanentFlags \ permitted }

/-- Modelled from the spec: session_flags.update applies the mode to the
uid's session flags with the full requested flag set (spec section
4.5). -/
def SelectedView.sessionUpdate (v : SelectedView) (uid : Nat)
    (flagSet : Finset Flag) (op : FlagOp) : SelectedView :=
  { v with sessionTable :=
      upsert v.sessionTable uid (op.apply (lookupD v.sessionTable uid) flagSet) }

/-- Modelled from the spec: the session flags of a uid, including Recent
for uids in the session-recent set. -/
def SelectedView.sessionFlagsOf (v : SelectedView) (uid : Nat) : Finset Flag :=
  lookupD v.sessionTable uid ∪ (if uid ∈ v.recentUids then {Recent} else ∅)

/-- Modelled from the spec: msg.get_flags is the union of the permanent
flags and the session flags of the uid (spec section 4.5). -/
def Msg.getFlags (m : Msg) (v : SelectedView) : Finset Flag :=
  m.permanentFlags ∪ v.sessionFlagsOf m.uid

/-- Modelled from the spec: the backend mailbox state (spec section 4.1),
with the selected-set reduced to the any-selected peer view and a counter
of update-event signals. -/
structure MailboxState : Type where
  name : String
  uidValidity : Nat
  nextUid : Nat
  readonly : Bool
  permanentFlags : Finset Flag
  sessionFlags : Finset Flag
  msgs : List Msg
  otherView : Option SelectedView
  updatedCount : Nat
deriving DecidableEq

/-- Modelled from the spec: items() enumerates (uid, permanent-flag-set)
pairs. -/
def MailboxState.items (m : MailboxState) : List (Nat × Finset Flag) :=
  m.msgs.map (fun g => (g.uid, g.permanentFlags))

/-- Modelled from the spec: add stores a message under the next uid with
the given recent bit and increments next-uid. -/
def MailboxState.add (m : MailboxState) (g : Msg) (recent : Bool) :
    Msg × MailboxState :=
  let g2 : Msg := { g with uid := m.nextUid, recent := recent }
  (g2, { m with msgs := m.msgs ++ [g2], nextUid := m.nextUid + 1 })

/-- Modelled from the spec: save_flags persists the given messages; each
stored message with a matching uid takes the saved copy's flags and
recent bit. -/
def MailboxState.saveFlags (m : MailboxState) (saved : List Msg) :
    MailboxState :=
  { m with msgs := m.msgs.map (fun g =>
      match saved.find? (fun s => s.uid = g.uid) with
      | some s => { g with permanentFlags := s.permanentFlags,
                           recent := s.recent }
      | none => g) }

/-- Modelled from the spec: delete removes the messages with the given
uids. -/
def MailboxState.deleteUids (m : MailboxState) (uids : List Nat) :
    MailboxState :=
  { m with msgs := m.msgs.filter (fun g => ¬uids.contains g.uid) }

/-- One update-event signal (selected_set.updated.set()). -/
def MailboxState.signalUpdated (m : MailboxState) : MailboxState :=
  { m with updatedCount := m.updatedCount + 1 }

/-- Resolve a sequence-set endpoint, the star being the maximum. -/
def seqValResolve (maxv : Nat) : Option Nat → Nat
  | some n => n
  | none => maxv

/-- Whether one sequence-set element covers n, ranges being unordered. -/
def SeqElem.covers (e : SeqElem) (maxv n : Nat) : Bool :=
  match e with
  | .single v => n == seqValResolve maxv v
  | .range a b =>
    decide (min (seqValResolve maxv a) (seqValResolve maxv b) ≤ n ∧
      n ≤ max (seqValResolve maxv a) (seqValResolve maxv b))

/-- Whether a sequence set covers n given the maximum value. -/
def SequenceSet.coversN (ss : SequenceSet) (maxv n : Nat) : Bool :=
  ss.elems.any (fun e => e.covers maxv n)

/-- Messages numbered from a starting sequence number. -/
def enumSeq : Nat → List Msg → List (Nat × Msg)
  | _, [] => []
  | i, g :: t => (i, g) :: enumSeq (i + 1) t

/-- Modelled from the spec: find yields (seq, uid, loaded message or
None) for the messages the sequence set selects, honoring uid versus
sequence-number addressing (spec section 4.1). -/
def MailboxState.find (m : MailboxState) (ss : SequenceSet) :
    List (Nat × Nat × Option Msg) :=
  (enumSeq 1 m.msgs).filterMap (fun p =>
    if (if ss.uid then ss.coversN (m.nextUid - 1) p.2.uid
        else ss.coversN m.msgs.length p.1) then
      some (p.1, p.2.uid, if p.2.loadable then some p.2 else none)
    else none)

/-- Modelled from the spec: SequenceSet.all covers every message. -/
def SequenceSet.allSet (uid : Bool) : SequenceSet :=
  ⟨[.range (some 1) none], uid⟩

/-- The session error kinds of spec section 7 that the embedded handlers
raise. -/
inductive SessionErr : Type where
  | mailboxNotFound (name : String)
  | mailboxReadOnly (name : String)
deriving DecidableEq, Repr

/-- The APPENDUID response data. -/
structure AppendUid : Type where
  uidValidity : Nat
  uids : List Nat
deriving DecidableEq, Repr

/-- The COPYUID response data. -/
structure CopyUid : Type where
  uidValidity : Nat
  pairs : List (Nat × Nat)
deriving DecidableEq, Repr

/-- The trace of backend calls a handler makes, in order.  The save-flags
events distinguish how the source calls save_flags: savedFlags stands for
the unpacked message objects of select_mailbox, savedFlagsTriples for the
(seq, uid, flags) triples update_flags passes, and savedFlagsIterableArg
for the single unexpanded generator argument fetch_messages passes; the
backend contract save_flags(msgs...) of spec section 4.1 can apply only
the first form to the store. -/
inductive BEvent : Type where
  | added (mbx : String) (uid : Nat) (recent : Bool)
  | deletedUids (mbx : String) (uids : List Nat)
  | savedFlags (mbx : String) (msgs : List Msg)
  | savedFlagsTriples (mbx : String) (args : List (Nat × Nat × Finset Flag))
  | savedFlagsIterableArg (mbx : String) (msgs : List Msg)
  | updatedSet (mbx : String)
  | refreshed
deriving DecidableEq

/-- The mailbox set of one authenticated user. -/
abbrev Store : Type := List MailboxState

/-- Modelled from the spec: get_mailbox resolves a name (spec section
4.1). -/
def getMailbox (store : Store) (name : String) : Option MailboxState :=
  store.find? (fun m => m.name = name)

/-- Write a mailbox state back into the store by name. -/
def setMailbox (store : Store) (m : MailboxState) : Store :=
  store.map (fun x => if x.name = m.name then m else x)

/-- Modelled from the spec: a newly created mailbox. -/
def freshMailbox (name : String) : MailboxState :=
  { name := name, uidValidity := 1, nextUid := 1, readonly := false,
    permanentFlags := ∅, sessionFlags := ∅, msgs := [], otherView := none,
    updatedCount := 0 }

/-- Modelled from the spec: get_mailbox with try_create resolves the name
or creates the mailbox (spec section 4.1). -/
def getOrCreate (store : Store) (name : String) : MailboxState × Store :=
  match getMailbox store name with
  | some m => (m, store)
  | none => (freshMailbox name, store ++ [freshMailbox name])

/-- BaseSession._load_updates (session.py lines 51 to 63): nothing without
a view; re-resolve by the view's name unless the command already
identified the view's mailbox, turning MailboxNotFound into a tombstone;
otherwise copy uid_validity and next_uid and add_messages every (uid,
permanent flags) pair of items(). -/
def loadUpdates (selected : Option SelectedView) (mbx : Option MailboxState)
    (store : Store) : Option SelectedView :=
  match selected with
  | none => none
  | some sel =>
    let resolved : Option MailboxState :=
      match mbx with
      | some m => if sel.name = m.name then some m else getMailbox store sel.name
      | none => getMailbox store sel.name
    match resolved with
    | none => some sel.setDeleted
    | some m =>
      some ((m.items).foldl (fun v p => v.addMessage p.1 p.2)
        { sel with uidValidity := m.uidValidity, nextUid := m.nextUid })

/-- BaseSession._find_selected (session.py lines 65 to 70): the session's
own view when it is on this mailbox, else the mailbox's any-selected
view. -/
def findSelected (selected : Option SelectedView) (m : MailboxState) :
    Option SelectedView :=
  match selected with
  | some s => if s.name = m.name then some s else m.otherView
  | none => m.otherView

/-- Modelled from the spec: parse_message builds a message from the data
to append; only its flags matter to the embedded claims. -/
def parseMessage (flags : Finset Flag) : Msg :=
  { uid := 0, permanentFlags := flags, recent := false, loadable := true }

/-- The per-message loop of append_messages (session.py lines 144 to
149): parse, add with recent set iff no destination view exists, give the
destination view the recent uid. -/
def appendLoop (hasDest : Bool) :
    MailboxState → Option SelectedView → List (Finset Flag) →
      MailboxState × Option SelectedView × List Nat × List BEvent
  | m, dv, [] => (m, dv, [], [])
  | m, dv, flags :: rest =>
    let r := m.add (parseMessage flags) (!hasDest)
    let dv2 := dv.map (fun v => v.addRecent r.1.uid)
    let rec2 := appendLoop hasDest r.2 dv2 rest
    (rec2.1, rec2.2.1, r.1.uid :: rec2.2.2.1,
      .added m.name r.1.uid (!hasDest) :: rec2.2.2.2)

/-- BaseSession.append_messages (session.py lines 135 to 152). -/
def appendMessages (store : Store) (name : String)
    (messages : List (Finset Flag)) (selected : Option SelectedView) :
    Except SessionErr (AppendUid × Option SelectedView) × Store × List BEvent :=
  let gc := getOrCreate store name
  let mbx := gc.1
  if mbx.readonly then (.error (.mailboxReadOnly name), gc.2, [])
  else
    let dest := findSelected selected mbx
    let isOwn : Bool :=
      match selected with
      | some s => s.name = mbx.name
      | none => false
    let lp := appendLoop dest.isSome mbx dest messages
    let m3 := lp.1.signalUpdated
    let m4 := if isOwn then m3 else { m3 with otherView := lp.2.1 }
    let selected2 := if isOwn then lp.2.1 else selected
    let store3 := setMailbox gc.2 m4
    let refreshed := loadUpdates selected2 (some m4) store3
    (.ok (⟨lp.1.uidValidity, lp.2.2.1⟩, refreshed), store3,
      lp.2.2.2 ++ [.updatedSet name, .refreshed])

/-- The fetch attributes, reduced to the set_seen bit the session engine
inspects. -/
structure FetchAttribute : Type where
  setSeen : Bool
deriving DecidableEq, Repr

/-- BaseSession.fetch_messages (session.py lines 182 to 193).  The
save_flags call of the source passes the generator unexpanded, as a
single argument, which the trace records as savedFlagsIterableArg; under
the backend contract save_flags(msgs...) no message reaches the store. -/
def fetchMessages (store : Store) (selected : SelectedView)
    (ss : SequenceSet) (attributes : List FetchAttribute) :
    Except SessionErr (List (Nat × Msg) × Option SelectedView) × Store ×
      List BEvent :=
  match getMailbox store selected.name with
  | none => (.error (.mailboxNotFound selected.name), store, [])
  | some mbx =>
    let ret0 := (mbx.find ss).filterMap (fun t => t.2.2.map (fun g => (t.1, g)))
    if ¬selected.readonly ∧ attributes.any (fun a => a.setSeen) then
      let ret := ret0.map (fun p =>
        (p.1, { p.2 with permanentFlags := insert Seen p.2.permanentFlags }))
      (.ok (ret, loadUpdates (some selected) (some mbx) store), store,
        [.savedFlagsIterableArg mbx.name (ret.map Prod.snd), .refreshed])
    else
      (.ok (ret0, loadUpdates (some selected) (some mbx) store), store,
        [.refreshed])

/-- BaseSession.expunge_mailbox (session.py lines 209 to 222). -/
def expungeMailbox (store : Store) (selected : SelectedView)
    (uidSet : Option SequenceSet) :
    Except SessionErr (Option SelectedView) × Store × List BEvent :=
  if selected.readonly then
    (.error (.mailboxReadOnly selected.name), store, [])
  else
    match getMailbox store selected.name with
    | none => (.error (.mailboxNotFound selected.name), store, [])
    | some mbx =>
      let us :=
        match uidSet with
        | some s => s
        | none => SequenceSet.allSet true
      let expungeUids := (mbx.find us).filterMap (fun t =>
        match t.2.2 with
        | some g => if Deleted ∈ g.permanentFlags then some t.2.1 else none
        | none => none)
      let m3 := (mbx.deleteUids expungeUids).signalUpdated
      let store2 := setMailbox store m3
      (.ok (loadUpdates (some selected) (some m3) store2), store2,
        [.deletedUids mbx.name expungeUids, .updatedSet mbx.name, .refreshed])

/-- The per-hit loop of copy_messages (session.py lines 234 to 239). -/
def copyLoop (hasDest : Bool) :
    MailboxState → Option SelectedView → List (Nat × Nat × Option Msg) →
      MailboxState × Option SelectedView × List (Nat × Nat) × List BEvent
  | dest, dv, [] => (dest, dv, [], [])
  | dest, dv, t :: rest =>
    match t.2.2 with
    | none => copyLoop hasDest dest dv rest
    | some g =>
      let r := dest.add g (!hasDest)
      let dv2 := dv.map (fun v => v.addRecent r.1.uid)
      let rec2 := copyLoop hasDest r.2 dv2 rest
      (rec2.1, rec2.2.1, (t.2.1, r.1.uid) :: rec2.2.2.1,
        .added dest.name r.1.uid (!hasDest) :: rec2.2.2.2)

/-- BaseSession.copy_messages (session.py lines 224 to 242). -/
def copyMessages (store : Store) (selected : SelectedView)
    (ss : SequenceSet) (mailbox : String) :
    Except SessionErr (CopyUid × Option SelectedView) × Store × List BEvent :=
  match getMailbox store selected.name with
  | none => (.error (.mailboxNotFound selected.name), store, [])
  | some mbx =>
    let gc := getOrCreate store mailbox
    let dest := gc.1
    if dest.readonly then (.error (.mailboxReadOnly mailbox), gc.2, [])
    else
      let dv := findSelected (some selected) dest
      let isOwn : Bool := selected.name = dest.name
      let lp := copyLoop dv.isSome dest dv (mbx.find ss)
      let d3 := lp.1.signalUpdated
      let d4 := if isOwn then d3 else { d3 with otherView := lp.2.1 }
      let selected2 := if isOwn then lp.2.1 else some selected
      let store3 := setMailbox gc.2 d4
      let mbxRef := if selected.name = mailbox then d4 else mbx
      (.ok (⟨lp.1.uidValidity, lp.2.2.1⟩,
          loadUpdates selected2 (some mbxRef) store3), store3,
        lp.2.2.2 ++ [.updatedSet mailbox, .refreshed])

/-- The per-hit loop of update_flags (session.py lines 255 to 262):
update the permanent flags of a loaded message for the permitted set,
update the view's session flags with the full set, and record the triple
with the union of permanent and session flags, or an empty set for a
miss. -/
def updateLoop (permitted flagSet : Finset Flag) (mode : FlagOp) :
    SelectedView → List (Nat × Nat × Option Msg) →
      SelectedView × List (Nat × Nat × Finset Flag)
  | sel, [] => (sel, [])
  | sel, t :: rest =>
    match t.2.2 with
    | some g =>
      let g2 := g.updateFlags permitted mode
      let sel2 := sel.sessionUpdate g.uid flagSet mode
      let rec2 := updateLoop permitted flagSet mode sel2 rest
      (rec2.1, (t.1, t.2.1, g2.getFlags sel2) :: rec2.2)
    | none =>
      let rec2 := updateLoop permitted flagSet mode sel rest
      (rec2.1, (t.1, t.2.1, (∅ : Finset Flag)) :: rec2.2)

/-- BaseSession.update_flags (session.py lines 244 to 265).  The source
passes the accumulated (seq, uid, flags) triples to save_flags rather
than the modified message objects; the trace records that call as
savedFlagsTriples and, under the backend contract save_flags(msgs...) of
spec section 4.1, no message is written back to the store. -/
def updateFlags (store : Store) (selected : SelectedView)
    (ss : SequenceSet) (flagSet : Finset Flag) (mode : FlagOp) :
    Except SessionErr (List (Nat × Nat × Finset Flag) × Option SelectedView) ×
      Store × List BEvent :=
  if selected.readonly then
    (.error (.mailboxReadOnly selected.name), store, [])
  else
    match getMailbox store selected.name with
    | none => (.error (.mailboxNotFound selected.name), store, [])
    | some mbx =>
      let permitted := selected.permanentFlags ∩ flagSet
      let lp := updateLoop permitted flagSet mode selected (mbx.find ss)
      let m2 := mbx.signalUpdated
      let store2 := setMailbox store m2
      (.ok (lp.2, loadUpdates (some lp.1) (some m2) store2), store2,
        [.savedFlagsTriples mbx.name lp.2, .updatedSet mbx.name, .refreshed])

/-- The messages append_messages stores: consecutive uids from the first
free uid, the append flags, the recent bit set iff no destination view
exists. -/
def mkAppended (hasDest : Bool) : Nat → List (Finset Flag) → List Msg
  | _, [] => []
  | u, fs :: rest =>
    { uid := u, permanentFlags := fs, recent := !hasDest, loadable := true } ::
      mkAppended hasDest (u + 1) rest

/-- The loaded (source uid, message) hits of a find result. -/
def copyHits (l : List (Nat × Nat × Option Msg)) : List (Nat × Msg) :=
  l.filterMap (fun t => t.2.2.map (fun g => (t.2.1, g)))

/-- The messages copy_messages stores: the loaded source messages under
consecutive destination uids, the recent bit set iff no destination view
exists. -/
def mkCopied (hasDest : Bool) : Nat → List (Nat × Msg) → List Msg
  | _, [] => []
  | u, h :: rest =>
    { h.2 with uid := u, recent := !hasDest } :: mkCopied hasDest (u + 1) rest

/-- Whether a backend event is an update-event signal. -/
def isUpd : BEvent → Bool
  | .updatedSet _ => true
  | _ => false

/-- A concrete store: one writable mailbox INBOX with uid validity 7,
holding the single message uid 1 with no permanent flags. -/
def inboxStore : Store :=
  [{ name := "INBOX", uidValidity := 7, nextUid := 2, readonly := false,
     permanentFlags := {Seen, Deleted}, sessionFlags := ∅,
     msgs := [{ uid := 1, permanentFlags := ∅, recent := false,
                loadable := true }],
     otherView := none, updatedCount := 0 }]

/-- A concrete writable view selecting the INBOX of inboxStore. -/
def inboxView : SelectedView :=
  { name := "INBOX", readonly := false, uidValidity := 7, nextUid := 2,
    viewMap := [], sessionTable := [], recentUids := ∅,
    permanentFlags := {Seen, Deleted}, deleted := false }

/-! ### Length facts about the primitives -/

theorem dropWhile_length_le (p : Char → Bool) (l : List Char) :
    (l.dropWhile p).length ≤ l.length := by
  induction l with
  | nil => simp [List.dropWhile]
  | cons c t ih =>
    by_cases h : p c
    · simp only [List.dropWhile, h]
      exact Nat.le_succ_of_le ih
    · simp [List.dropWhile, h]

theorem dropWhile_cons_length_lt (p : Char → Bool) (c : Char) (t : List Char)
    (h : p c = true) : ((c :: t).dropWhile p).length < (c :: t).length := by
  rw [List.dropWhile_cons_of_pos h]
  exact Nat.lt_succ_of_le (dropWhile_length_le p t)

theorem skipSpaces_length_le (b : List Char) : (skipSpaces b).length ≤ b.length :=
  dropWhile_length_le _ b

theorem skipSpaces_cons_of_ne (c : Char) (t : List Char) (h : ¬c = ' ') :
    skipSpaces (c :: t) = c :: t := by
  simp [skipSpaces, List.dropWhile_cons_of_neg, h]

theorem parseSpace_length (b r : List Char) (h : parseSpace b = some r) :
    r.length < b.length := by
  cases b with
  | nil => cases h
  | cons c t =>
    by_cases hc : c = ' '
    · simp only [parseSpace, if_pos hc, Option.some.injEq] at h
      subst h
      exact Nat.lt_succ_of_le (skipSpaces_length_le t)
    · simp only [parseSpace, if_neg hc] at h
      cases h

theorem stripNot_length (b r : List Char) (h : stripNot b = some r) :
    r.length < b.length := by
  match b with
  | [] => cases h
  | [c1] => cases h
  | [c1, c2] => cases h
  | [c1, c2, c3] => cases h
  | c1 :: c2 :: c3 :: c4 :: rest =>
    simp only [stripNot] at h
    split at h
    · simp only [Option.some.injEq] at h
      subst h
      have := skipSpaces_length_le rest
      simp only [List.length_cons]
      omega
    · cases h

theorem atomSpan_length (b cs r : List Char) (h : atomSpan b = some (cs, r)) :
    r.length < b.length := by
  cases b with
  | nil => cases h
  | cons c t =>
    by_cases hc : isAtomChar c
    · simp only [atomSpan, if_pos hc, Option.some.injEq, Prod.mk.injEq] at h
      obtain ⟨h1, h2⟩ := h
      subst h2
      exact dropWhile_cons_length_lt _ c t hc
    · simp only [atomSpan, if_neg hc] at h
      cases h

theorem quotedSpan_length (b : List Char) :
    ∀ cs r, quotedSpan b = some (cs, r) → r.length < b.length := by
  induction b with
  | nil => intro cs r h; cases h
  | cons c rest ih =>
    intro cs r h
    by_cases hq : c = '"'
    · simp only [quotedSpan, if_pos hq, Option.some.injEq, Prod.mk.injEq] at h
      obtain ⟨h1, h2⟩ := h
      subst h2
      simp
    · simp only [quotedSpan, if_neg hq] at h
      cases hs : quotedSpan rest with
      | none =>
        simp only [hs, Option.map_none'] at h
        cases h
      | some p =>
        simp only [hs, Option.map_some', Option.some.injEq, Prod.mk.injEq] at h
        obtain ⟨h1, h2⟩ := h
        subst h2
        have := ih p.1 p.2 hs
        simp only [List.length_cons]
        omega

theorem parseQuoted_length (b cs r : List Char) (h : parseQuoted b = some (cs, r)) :
    r.length < b.length := by
  cases b with
  | nil => cases h
  | cons c t =>
    by_cases hc : c = '"'
    · simp only [parseQuoted, if_pos hc] at h
      have := quotedSpan_length t cs r h
      simp only [List.length_cons]
      omega
    · simp only [parseQuoted, if_neg hc] at h
      cases h

theorem parseAString_length (b cs r : List Char) (h : parseAString b = some (cs, r)) :
    r.length < b.length := by
  unfold parseAString at h
  split at h
  · exact parseQuoted_length _ _ _ h
  · exact atomSpan_length _ _ _ h

theorem parseSeqSet_length (u : Bool) (b : List Char) (s : SequenceSet)
    (r : List Char) (h : parseSeqSet u b = some (s, r)) : r.length < b.length := by
  cases b with
  | nil => cases h
  | cons c t =>
    by_cases hc : isSeqChar c
    · simp only [parseSeqSet, if_pos hc] at h
      cases he : parseSeqElems (splitOnChar ',' ((c :: t).takeWhile isSeqChar)) with
      | none =>
        simp only [he] at h
        cases h
      | some es =>
        simp only [he, Option.some.injEq, Prod.mk.injEq] at h
        obtain ⟨h1, h2⟩ := h
        subst h2
        exact dropWhile_cons_length_lt _ c t hc
    · simp only [parseSeqSet, if_neg hc] at h
      cases h

theorem parseNumber_length (b : List Char) (n : Nat) (r : List Char)
    (h : parseNumber b = some (n, r)) : r.length < b.length := by
  cases b with
  | nil => cases h
  | cons c t =>
    by_cases hc : c.isDigit
    · simp only [parseNumber, if_pos hc, Option.some.injEq, Prod.mk.injEq] at h
      obtain ⟨h1, h2⟩ := h
      subst h2
      exact dropWhile_cons_length_lt _ c t hc
    · simp only [parseNumber, if_neg hc] at h
      cases h

theorem parseFlag_length (b : List Char) (f : Flag) (r : List Char)
    (h : parseFlag b = some (f, r)) : r.length < b.length := by
  cases b with
  | nil => cases h
  | cons c t =>
    by_cases hc : c = '\\'
    · simp only [parseFlag, if_pos hc] at h
      cases ha : atomSpan t with
      | none =>
        simp only [ha] at h
        cases h
      | some p =>
        simp only [ha, Option.some.injEq, Prod.mk.injEq] at h
        obtain ⟨h1, h2⟩ := h
        subst h2
        have := atomSpan_length t p.1 p.2 (by rw [ha])
        simp only [List.length_cons]
        omega
    · simp only [parseFlag, if_neg hc] at h
      cases ha : atomSpan (c :: t) with
      | none =>
        simp only [ha] at h
        cases h
      | some p =>
        simp only [ha, Option.some.injEq, Prod.mk.injEq] at h
        obtain ⟨h1, h2⟩ := h
        subst h2
        exact atomSpan_length (c :: t) p.1 p.2 (by rw [ha])

theorem parseDateFilter_length (b : List Char) (d : SKDate) (r : List Char)
    (h : parseDateFilter b = some (d, r)) : r.length < b.length := by
  unfold parseDateFilter at h
  cases ha : parseAString b with
  | none =>
    simp only [ha] at h
    cases h
  | some p =>
    simp only [ha] at h
    cases hd : parseDateChars p.1 with
    | none =>
      simp only [hd] at h
      cases h
    | some dd =>
      simp only [hd, Option.some.injEq, Prod.mk.injEq] at h
      obtain ⟨h1, h2⟩ := h
      subst h2
      exact parseAString_length b p.1 p.2 (by rw [ha])

/-! ### The parser consumes at least one character on success -/

theorem liftO_length {α : Type} (f : List Char → Option (α × List Char))
    (hf : ∀ b a r, f b = some (a, r) → r.length < b.length) :
    ∀ b a r, liftO f b = .ok (a, r) → r.length < b.length := by
  intro b a r h
  unfold liftO at h
  cases hx : f b with
  | none => simp only [hx] at h; cases h
  | some p =>
    obtain ⟨a0, r0⟩ := p
    simp only [hx, Except.ok.injEq, Prod.mk.injEq] at h
    obtain ⟨rfl, rfl⟩ := h
    exact hf b a0 r0 hx

theorem keywordSub_length :
    ∀ b a r, keywordSub b = .ok (a, r) → r.length < b.length := by
  intro b a r h
  unfold keywordSub at h
  cases hx : parseFlag b with
  | none => simp only [hx] at h; cases h
  | some p =>
    obtain ⟨fl, b2⟩ := p
    simp only [hx] at h
    split at h
    · cases h
    · simp only [Except.ok.injEq, Prod.mk.injEq] at h
      obtain ⟨rfl, rfl⟩ := h
      exact parseFlag_length b fl b2 hx

theorem headerSub_length :
    ∀ b a r, headerSub b = .ok (a, r) → r.length < b.length := by
  intro b a r h
  unfold headerSub at h
  cases h1 : parseAString b with
  | none => simp only [h1] at h; cases h
  | some p =>
    obtain ⟨fs, b2⟩ := p
    simp only [h1] at h
    cases h2 : parseSpace b2 with
    | none => simp only [h2] at h; cases h
    | some b3 =>
      simp only [h2] at h
      cases h3 : parseAString b3 with
      | none => simp only [h3] at h; cases h
      | some q =>
        obtain ⟨vs, b4⟩ := q
        simp only [h3, Except.ok.injEq, Prod.mk.injEq] at h
        obtain ⟨rfl, rfl⟩ := h
        have l1 := parseAString_length b fs b2 h1
        have l2 := parseSpace_length b2 b3 h2
        have l3 := parseAString_length b3 vs b4 h3
        omega

theorem orSub_length (pk : KParser) (u : Bool)
    (hpk : ∀ u2 b k r, pk u2 b = .ok (k, r) → r.length < b.length) :
    ∀ b a r, orSub pk u b = .ok (a, r) → r.length < b.length := by
  intro b a r h
  unfold orSub at h
  cases h1 : pk u b with
  | error e => simp only [h1] at h; cases h
  | ok p =>
    obtain ⟨k1, r1⟩ := p
    simp only [h1] at h
    cases h2 : parseSpace r1 with
    | none => simp only [h2] at h; cases h
    | some r2 =>
      simp only [h2] at h
      cases h3 : pk u r2 with
      | error e => simp only [h3] at h; cases h
      | ok q =>
        obtain ⟨k2, r3⟩ := q
        simp only [h3, Except.ok.injEq, Prod.mk.injEq] at h
        obtain ⟨rfl, rfl⟩ := h
        have l1 := hpk u b k1 r1 h1
        have l2 := parseSpace_length r1 r2 h2
        have l3 := hpk u r2 k2 r3 h3
        omega

theorem branchP_length {α : Type} (sub : List Char → Except PErr (α × List Char))
    (mkk : α → SearchKey)
    (hsub : ∀ b a r, sub b = .ok (a, r) → r.length < b.length) :
    ∀ after k r, branchP sub mkk after = .ok (k, r) → r.length < after.length := by
  intro after k r h
  unfold branchP at h
  cases hs : parseSpace after with
  | none => simp only [hs] at h; cases h
  | some b1 =>
    simp only [hs] at h
    cases hb : sub b1 with
    | error e => simp only [hb, branchCont] at h; cases h
    | ok p =>
      obtain ⟨a, b2⟩ := p
      simp only [hb, branchCont, Except.ok.injEq, Prod.mk.injEq] at h
      obtain ⟨rfl, rfl⟩ := h
      have l1 := parseSpace_length after b1 hs
      have l2 := hsub b1 a b2 hb
      omega

theorem keyDispatch_length (pk : KParser) (uid : Bool)
    (hpk : ∀ u b k r, pk u b = .ok (k, r) → r.length < b.length) :
    ∀ key after k r, keyDispatch pk uid key after = .ok (k, r) →
      r.length ≤ after.length := by
  intro key after k r h
  unfold keyDispatch at h
  split at h
  · simp only [Except.ok.injEq, Prod.mk.injEq] at h
    obtain ⟨rfl, rfl⟩ := h
    exact le_rfl
  · split at h
    · exact le_of_lt (branchP_length _ _
        (liftO_length parseAString (fun a b c => parseAString_length a b c))
        after k r h)
    · split at h
      · exact le_of_lt (branchP_length _ _
          (liftO_length parseDateFilter (fun a b c => parseDateFilter_length a b c))
          after k r h)
      · split at h
        · exact le_of_lt (branchP_length _ _ keywordSub_length after k r h)
        · split at h
          · exact le_of_lt (branchP_length _ _
              (liftO_length parseNumber (fun a b c => parseNumber_length a b c))
              after k r h)
          · split at h
            · exact le_of_lt (branchP_length _ _
                (liftO_length (parseSeqSet true)
                  (fun a b c => parseSeqSet_length true a b c))
                after k r h)
            · split at h
              · exact le_of_lt (branchP_length _ _ headerSub_length after k r h)
              · split at h
                · exact le_of_lt (branchP_length _ _
                    (orSub_length pk uid hpk) after k r h)
                · cases h

theorem coreBody_length (pk : KParser) (pl : LParser)
    (hpk : ∀ u b k r, pk u b = .ok (k, r) → r.length < b.length)
    (hpl : ∀ u b ks r, pl u b = .ok (ks, r) → r.length < b.length) :
    ∀ u b k r, coreBody pk pl u b = .ok (k, r) → r.length < b.length := by
  intro u b k r h
  unfold coreBody at h
  cases hss : parseSeqSet u b with
  | some p =>
    obtain ⟨ss, rest⟩ := p
    simp only [hss, Except.ok.injEq, Prod.mk.injEq] at h
    obtain ⟨rfl, rfl⟩ := h
    exact parseSeqSet_length u b ss rest hss
  | none =>
    simp only [hss] at h
    cases b with
    | nil => cases h
    | cons c rest =>
      dsimp only at h
      by_cases hc : c = '('
      · rw [if_pos hc] at h
        cases hl : pl u rest with
        | error e => simp only [hl] at h; cases h
        | ok p =>
          obtain ⟨ks, rest2⟩ := p
          simp only [hl, Except.ok.injEq, Prod.mk.injEq] at h
          obtain ⟨rfl, rfl⟩ := h
          have := hpl u rest ks rest2 hl
          simp only [List.length_cons]
          omega
      · rw [if_neg hc] at h
        cases ha : atomSpan (c :: rest) with
        | none => simp only [ha] at h; cases h
        | some p =>
          obtain ⟨cs, after⟩ := p
          simp only [ha] at h
          have haft := atomSpan_length (c :: rest) cs after ha
          have := keyDispatch_length pk u hpk _ after k r h
          omega

theorem listBody_length (pk : KParser) (pl : LParser)
    (hpk : ∀ u b k r, pk u b = .ok (k, r) → r.length < b.length)
    (hpl : ∀ u b ks r, pl u b = .ok (ks, r) → r.length < b.length) :
    ∀ u b ks r, listBody pk pl u b = .ok (ks, r) → r.length < b.length := by
  intro u b ks r h
  unfold listBody at h
  have hsk := skipSpaces_length_le b
  split at h
  · rename_i rest heq
    simp only [Except.ok.injEq, Prod.mk.injEq] at h
    obtain ⟨rfl, rfl⟩ := h
    rw [heq] at hsk
    simp only [List.length_cons] at hsk
    omega
  · cases h1 : pk u (skipSpaces b) with
    | error e => simp only [h1] at h; cases h
    | ok p =>
      obtain ⟨k1, r1⟩ := p
      simp only [h1] at h
      cases h2 : pl u r1 with
      | error e => simp only [h2] at h; cases h
      | ok q =>
        obtain ⟨ks2, r2⟩ := q
        simp only [h2, Except.ok.injEq, Prod.mk.injEq] at h
        obtain ⟨rfl, rfl⟩ := h
        have l1 := hpk u (skipSpaces b) k1 r1 h1
        have l2 := hpl u r1 ks2 r2 h2
        omega

theorem keyBody_length (pk : KParser) (pl : LParser)
    (hpk : ∀ u b k r, pk u b = .ok (k, r) → r.length < b.length)
    (hpl : ∀ u b ks r, pl u b = .ok (ks, r) → r.length < b.length) :
    ∀ u b k r, keyBody pk pl u b = .ok (k, r) → r.length < b.length := by
  intro u b k r h
  unfold keyBody at h
  have hsk := skipSpaces_length_le b
  have hcore := coreBody_length pk pl hpk hpl
  cases hn : stripNot (skipSpaces b) with
  | some r0 =>
    simp only [hn] at h
    cases hc : coreBody pk pl u r0 with
    | error e => simp only [hc] at h; cases h
    | ok p =>
      obtain ⟨k1, r1⟩ := p
      simp only [hc, Except.ok.injEq, Prod.mk.injEq] at h
      obtain ⟨rfl, rfl⟩ := h
      have l1 := stripNot_length (skipSpaces b) r0 hn
      have l2 := hcore u r0 k1 r1 hc
      omega
  | none =>
    simp only [hn] at h
    cases hc : coreBody pk pl u (skipSpaces b) with
    | error e => simp only [hc] at h; cases h
    | ok p =>
      obtain ⟨k1, r1⟩ := p
      simp only [hc, Except.ok.injEq, Prod.mk.injEq] at h
      obtain ⟨rfl, rfl⟩ := h
      have l2 := hcore u (skipSpaces b) k1 r1 hc
      omega

theorem parseF_length (n : Nat) :
    (∀ u b k r, pkF n u b = .ok (k, r) → r.length < b.length) ∧
    (∀ u b ks r, plF n u b = .ok (ks, r) → r.length < b.length) := by
  induction n with
  | zero =>
    constructor
    · intro u b k r h
      cases h
    · intro u b ks r h
      cases h
  | succ n ih =>
    constructor
    · exact keyBody_length (pkF n) (plF n) ih.1 ih.2
    · exact listBody_length (pkF n) (plF n) ih.1 ih.2

/-! ### Fuel irrelevance: any sufficient fuel computes the same result -/

theorem orSub_congr (pk1 pk2 : KParser) (u : Bool) (n : Nat)
    (hlen : ∀ u2 b2 k r, pk1 u2 b2 = .ok (k, r) → r.length < b2.length)
    (hpk : ∀ u2 b2, b2.length ≤ n → pk1 u2 b2 = pk2 u2 b2) :
    ∀ b, b.length ≤ n → orSub pk1 u b = orSub pk2 u b := by
  intro b hb
  unfold orSub
  rw [hpk u b hb]
  cases h1 : pk2 u b with
  | error e => rfl
  | ok p =>
    obtain ⟨k1, r1⟩ := p
    simp only [h1]
    cases h2 : parseSpace r1 with
    | none => rfl
    | some r2 =>
      simp only [h2]
      have hr1 : r1.length < b.length := hlen u b k1 r1 (by rw [hpk u b hb, h1])
      have hr2 := parseSpace_length r1 r2 h2
      rw [hpk u r2 (by omega)]

theorem branchP_congr {α : Type} (sub1 sub2 : List Char → Except PErr (α × List Char))
    (mkk : α → SearchKey) (after : List Char)
    (hsub : ∀ b1, b1.length < after.length → sub1 b1 = sub2 b1) :
    branchP sub1 mkk after = branchP sub2 mkk after := by
  unfold branchP
  cases hs : parseSpace after with
  | none => rfl
  | some b1 =>
    simp only [hs]
    rw [hsub b1 (parseSpace_length after b1 hs)]

theorem keyDispatch_congr (pk1 pk2 : KParser) (u : Bool) (n : Nat)
    (hlen : ∀ u2 b2 k r, pk1 u2 b2 = .ok (k, r) → r.length < b2.length)
    (hpk : ∀ u2 b2, b2.length ≤ n → pk1 u2 b2 = pk2 u2 b2) :
    ∀ key after, after.length ≤ n →
      keyDispatch pk1 u key after = keyDispatch pk2 u key after := by
  intro key after ha
  unfold keyDispatch
  by_cases h1 : key ∈ nullaryKeys
  · simp only [if_pos h1]
  · simp only [if_neg h1]
    by_cases h2 : key ∈ stringKeys
    · simp only [if_pos h2]
    · simp only [if_neg h2]
      by_cases h3 : key ∈ dateKeys
      · simp only [if_pos h3]
      · simp only [if_neg h3]
        by_cases h4 : key = "KEYWORD" ∨ key = "UNKEYWORD"
        · simp only [if_pos h4]
        · simp only [if_neg h4]
          by_cases h5 : key = "LARGER" ∨ key = "SMALLER"
          · simp only [if_pos h5]
          · simp only [if_neg h5]
            by_cases h6 : key = "UID"
            · simp only [if_pos h6]
            · simp only [if_neg h6]
              by_cases h7 : key = "HEADER"
              · simp only [if_pos h7]
              · simp only [if_neg h7]
                by_cases h8 : key = "OR"
                · simp only [if_pos h8]
                  exact branchP_congr _ _ _ after
                    (fun b1 hb1 => orSub_congr pk1 pk2 u n hlen hpk b1 (by omega))
                · simp only [if_neg h8]

theorem coreBody_congr (pk1 pk2 : KParser) (pl1 pl2 : LParser) (u : Bool)
    (hlen : ∀ u2 b2 k r, pk1 u2 b2 = .ok (k, r) → r.length < b2.length) :
    ∀ b : List Char,
      (∀ u2 b2, b2.length < b.length → pk1 u2 b2 = pk2 u2 b2) →
      (∀ u2 b2, b2.length < b.length → pl1 u2 b2 = pl2 u2 b2) →
      coreBody pk1 pl1 u b = coreBody pk2 pl2 u b := by
  intro b hpk hpl
  unfold coreBody
  cases hss : parseSeqSet u b with
  | some p => rfl
  | none =>
    cases b with
    | nil => rfl
    | cons c rest =>
      dsimp only
      by_cases hc : c = '('
      · simp only [if_pos hc]
        rw [hpl u rest (by simp)]
      · simp only [if_neg hc]
        cases ha : atomSpan (c :: rest) with
        | none => rfl
        | some p =>
          obtain ⟨cs, after⟩ := p
          simp only [ha]
          have haft := atomSpan_length (c :: rest) cs after ha
          exact keyDispatch_congr pk1 pk2 u after.length hlen
            (fun u2 b2 hb2 => hpk u2 b2 (by omega)) _ after le_rfl

theorem keyBody_congr (pk1 pk2 : KParser) (pl1 pl2 : LParser) (u : Bool)
    (hlen : ∀ u2 b2 k r, pk1 u2 b2 = .ok (k, r) → r.length < b2.length) :
    ∀ b : List Char,
      (∀ u2 b2, b2.length < b.length → pk1 u2 b2 = pk2 u2 b2) →
      (∀ u2 b2, b2.length < b.length → pl1 u2 b2 = pl2 u2 b2) →
      keyBody pk1 pl1 u b = keyBody pk2 pl2 u b := by
  intro b hpk hpl
  unfold keyBody
  have hsk := skipSpaces_length_le b
  cases hn : stripNot (skipSpaces b) with
  | some r0 =>
    simp only [hn]
    have hr0 := stripNot_length (skipSpaces b) r0 hn
    rw [coreBody_congr pk1 pk2 pl1 pl2 u hlen r0
      (fun u2 b2 hb2 => hpk u2 b2 (by omega))
      (fun u2 b2 hb2 => hpl u2 b2 (by omega))]
  | none =>
    simp only [hn]
    rw [coreBody_congr pk1 pk2 pl1 pl2 u hlen (skipSpaces b)
      (fun u2 b2 hb2 => hpk u2 b2 (by omega))
      (fun u2 b2 hb2 => hpl u2 b2 (by omega))]

theorem listBody_congr (pk1 pk2 : KParser) (pl1 pl2 : LParser) (u : Bool)
    (hlen : ∀ u2 b2 k r, pk1 u2 b2 = .ok (k, r) → r.length < b2.length) :
    ∀ b : List Char,
      (∀ u2 b2, b2.length ≤ b.length → pk1 u2 b2 = pk2 u2 b2) →
      (∀ u2 b2, b2.length < b.length → pl1 u2 b2 = pl2 u2 b2) →
      listBody pk1 pl1 u b = listBody pk2 pl2 u b := by
  intro b hpk hpl
  unfold listBody
  have hsk := skipSpaces_length_le b
  split
  · rfl
  · rw [hpk u (skipSpaces b) hsk]
    cases h1 : pk2 u (skipSpaces b) with
    | error e => rfl
    | ok p =>
      obtain ⟨k1, r1⟩ := p
      simp only [h1]
      have hr1 : r1.length < (skipSpaces b).length :=
        hlen u (skipSpaces b) k1 r1 (by rw [hpk u (skipSpaces b) hsk, h1])
      rw [hpl u r1 (by omega)]

/-- Fuel irrelevance: on a buffer of length L, any fuel of at least 2L+2
computes the same key parse, and any fuel of at least 2L+3 the same
key-list parse. -/
theorem fuel_irrel (N : Nat) :
    ∀ b : List Char, b.length ≤ N → ∀ u : Bool,
      (∀ f g, 2 * b.length + 2 ≤ f → 2 * b.length + 2 ≤ g →
        pkF f u b = pkF g u b) ∧
      (∀ f g, 2 * b.length + 3 ≤ f → 2 * b.length + 3 ≤ g →
        plF f u b = plF g u b) := by
  induction N using Nat.strong_induction_on with
  | _ N ih =>
    intro b hb u
    have hkeyAll : ∀ b2 : List Char, b2.length ≤ N → ∀ u2 f g,
        2 * b2.length + 2 ≤ f → 2 * b2.length + 2 ≤ g →
          pkF f u2 b2 = pkF g u2 b2 := by
      intro b2 hb2 u2 f g hf hg
      obtain ⟨f, rfl⟩ : ∃ x, f = x + 1 := ⟨f - 1, by omega⟩
      obtain ⟨g, rfl⟩ : ∃ x, g = x + 1 := ⟨g - 1, by omega⟩
      show keyBody (pkF f) (plF f) u2 b2 = keyBody (pkF g) (plF g) u2 b2
      refine keyBody_congr (pkF f) (pkF g) (plF f) (plF g) u2
        (parseF_length f).1 b2 ?_ ?_
      · intro u3 b3 hb3
        exact (ih b3.length (by omega) b3 le_rfl u3).1 f g (by omega) (by omega)
      · intro u3 b3 hb3
        exact (ih b3.length (by omega) b3 le_rfl u3).2 f g (by omega) (by omega)
    constructor
    · exact fun f g hf hg => hkeyAll b hb u f g hf hg
    · intro f g hf hg
      obtain ⟨f, rfl⟩ : ∃ x, f = x + 1 := ⟨f - 1, by omega⟩
      obtain ⟨g, rfl⟩ : ∃ x, g = x + 1 := ⟨g - 1, by omega⟩
      show listBody (pkF f) (plF f) u b = listBody (pkF g) (plF g) u b
      refine listBody_congr (pkF f) (pkF g) (plF f) (plF g) u
        (parseF_length f).1 b ?_ ?_
      · intro u3 b3 hb3
        exact hkeyAll b3 (by omega) u3 f g (by omega) (by omega)
      · intro u3 b3 hb3
        exact (ih b3.length (by omega) b3 le_rfl u3).2 f g (by omega) (by omega)

/-- Any sufficient fuel computes SearchKey.parse. -/
theorem pkF_eq_parse (f : Nat) (u : Bool) (b : List Char)
    (hf : 2 * b.length + 2 ≤ f) : pkF f u b = SearchKey.parse u b :=
  (fuel_irrel b.length b le_rfl u).1 f (2 * b.length + 4) hf (by omega)

/-! ### Behavior of the NOT prefix (claim C6) -/

theorem pkF_succ (n : Nat) (u : Bool) (b : List Char) :
    pkF (n + 1) u b = keyBody (pkF n) (plF n) u b := rfl

theorem setInverse_setInverse (k : SearchKey) (i j : Bool) :
    (k.setInverse i).setInverse j = k.setInverse j := by
  cases k
  rfl

theorem inverse_setInverse (k : SearchKey) (i : Bool) :
    (k.setInverse i).inverse = i := by
  cases k
  rfl

/-- The parser front on a NOT-prefixed buffer reduces to the core on the
remaining buffer with the inverse bit set. -/
theorem keyBody_not_front (pk : KParser) (pl : LParser) (u : Bool)
    (b : List Char) :
    keyBody pk pl u ('N' :: 'O' :: 'T' :: ' ' :: b) =
      match coreBody pk pl u (skipSpaces b) with
      | .ok (k, rest) => .ok (k.setInverse true, rest)
      | .error e => .error e := rfl

/-- The core never accepts a buffer that still carries a NOT prefix: the
atom NOT is not a recognized search keyword. -/
theorem coreBody_stripNot_fails (pk : KParser) (pl : LParser) (u : Bool)
    (b r : List Char) (h : stripNot b = some r) :
    coreBody pk pl u b = .error .notParseable := by
  match b with
  | [] => cases h
  | [c1] => cases h
  | [c1, c2] => cases h
  | [c1, c2, c3] => cases h
  | c1 :: c2 :: c3 :: c4 :: rest =>
    simp only [stripNot] at h
    split at h
    · rename_i hcond
      obtain ⟨hc1, hc2, hc3, hc4⟩ := hcond
      subst hc4
      rcases hc1 with rfl | rfl <;> rcases hc2 with rfl | rfl <;>
        rcases hc3 with rfl | rfl <;> rfl
    · cases h

/-- Claim C6, amended: prefixing a parseable buffer with NOT toggles the
inverse bit when the buffer itself carried no NOT prefix (parsed key with
inverse false); when the parsed key already has inverse set, the
NOT-prefixed buffer fails to parse, because the NOT pattern of the source
is applied at most once.  The not_inverse copy is an involution. -/
theorem parse_not_toggles :
    (∀ (u : Bool) (b : List Char) (k : SearchKey) (rest : List Char),
      SearchKey.parse u b = .ok (k, rest) →
      SearchKey.parse u ('N' :: 'O' :: 'T' :: ' ' :: b) =
        if k.inverse then .error .notParseable
        else .ok (k.setInverse true, rest)) ∧
    (∀ k : SearchKey, k.notInverse.notInverse = k) := by
  constructor
  · intro u b k rest h
    unfold SearchKey.parse at h ⊢
    have hf1 : 2 * ('N' :: 'O' :: 'T' :: ' ' :: b).length + 4 =
        (2 * b.length + 11) + 1 := by
      simp only [List.length_cons]
      omega
    have hf2 : 2 * b.length + 4 = (2 * b.length + 3) + 1 := by omega
    rw [hf1, pkF_succ, keyBody_not_front]
    rw [hf2, pkF_succ] at h
    unfold keyBody at h
    have hcong : coreBody (pkF (2 * b.length + 11)) (plF (2 * b.length + 11)) u
        (skipSpaces b) =
        coreBody (pkF (2 * b.length + 3)) (plF (2 * b.length + 3)) u
        (skipSpaces b) := by
      have hsk := skipSpaces_length_le b
      refine coreBody_congr _ _ _ _ u (parseF_length _).1 (skipSpaces b) ?_ ?_
      · intro u2 b2 hb2
        exact (fuel_irrel b2.length b2 le_rfl u2).1 _ _ (by omega) (by omega)
      · intro u2 b2 hb2
        exact (fuel_irrel b2.length b2 le_rfl u2).2 _ _ (by omega) (by omega)
    cases hn : stripNot (skipSpaces b) with
    | none =>
      simp only [hn] at h
      cases hcore : coreBody (pkF (2 * b.length + 3)) (plF (2 * b.length + 3))
          u (skipSpaces b) with
      | error e => simp only [hcore] at h; cases h
      | ok p =>
        obtain ⟨k0, r0⟩ := p
        simp only [hcore, Except.ok.injEq, Prod.mk.injEq] at h
        obtain ⟨rfl, rfl⟩ := h
        rw [hcong, hcore]
        rw [inverse_setInverse, setInverse_setInverse]
        rfl
    | some r1 =>
      simp only [hn] at h
      cases hcore : coreBody (pkF (2 * b.length + 3)) (plF (2 * b.length + 3))
          u r1 with
      | error e => simp only [hcore] at h; cases h
      | ok p =>
        obtain ⟨k0, r0⟩ := p
        simp only [hcore, Except.ok.injEq, Prod.mk.injEq] at h
        obtain ⟨rfl, rfl⟩ := h
        rw [hcong, coreBody_stripNot_fails _ _ u (skipSpaces b) r1 hn]
        rw [inverse_setInverse]
        rfl
  · intro k
    cases k with
    | mk a f i =>
      simp [SearchKey.notInverse, Bool.not_not]

/-- Witness instance of the amended C6 theorem at a concrete input. -/
theorem parse_not_toggles_witness :
    SearchKey.parse false ['N', 'O', 'T', ' ', 'A', 'L', 'L'] =
      .ok ((SearchKey.mk "ALL" .nofilter false).setInverse true, []) := by
  have := parse_not_toggles.1 false ['A', 'L', 'L']
    (SearchKey.mk "ALL" .nofilter false) [] (by rfl)
  simpa using this

/-- Counterexample to claim C6 as stated: the buffer NOT ALL parses (to an
inverted ALL key), but prefixing it with NOT again does not parse; a
double NOT does not yield the original key. -/
theorem parse_double_not_fails :
    SearchKey.parse false ['N', 'O', 'T', ' ', 'A', 'L', 'L'] =
      .ok (SearchKey.mk "ALL" .nofilter true, []) ∧
    SearchKey.parse false
      ['N', 'O', 'T', ' ', 'N', 'O', 'T', ' ', 'A', 'L', 'L'] =
      .error .notParseable := by
  constructor
  · rfl
  · rfl

/-! ### KEYWORD and UNKEYWORD reject system flags (claim C9) -/

theorem isAtomChar_ne_space (c : Char) (h : isAtomChar c = true) : ¬c = ' ' := by
  intro hc
  subst hc
  simp [isAtomChar] at h

/-- A buffer accepted by Flag.parse does not start with a space. -/
theorem parseFlag_skipSpaces (s : List Char) (fl : Flag) (rest : List Char)
    (h : parseFlag s = some (fl, rest)) : skipSpaces s = s := by
  cases s with
  | nil => cases h
  | cons c t =>
    by_cases hb : c = '\\'
    · subst hb
      exact skipSpaces_cons_of_ne _ t (by decide)
    · simp only [parseFlag, if_neg hb] at h
      cases ha : atomSpan (c :: t) with
      | none =>
        simp only [ha] at h
        cases h
      | some p =>
        have hc : isAtomChar c = true := by
          by_contra hcn
          simp only [atomSpan, if_neg hcn] at ha
          cases ha
        exact skipSpaces_cons_of_ne c t (isAtomChar_ne_space c hc)

/-- The parser front on a KEYWORD atom reduces to the keyword-flag branch. -/
theorem keyBody_keyword_front (pk : KParser) (pl : LParser) (u : Bool)
    (s : List Char) :
    keyBody pk pl u (['K', 'E', 'Y', 'W', 'O', 'R', 'D', ' '] ++ s) =
      (match branchCont (fun fl => SearchKey.mk "KEYWORD" (.flag fl) false)
              (keywordSub (skipSpaces s)) with
       | .ok (k, rest) => .ok (k.setInverse false, rest)
       | .error e => .error e) := rfl

/-- The parser front on an UNKEYWORD atom reduces to the keyword-flag
branch. -/
theorem keyBody_unkeyword_front (pk : KParser) (pl : LParser) (u : Bool)
    (s : List Char) :
    keyBody pk pl u (['U', 'N', 'K', 'E', 'Y', 'W', 'O', 'R', 'D', ' '] ++ s) =
      (match branchCont (fun fl => SearchKey.mk "UNKEYWORD" (.flag fl) false)
              (keywordSub (skipSpaces s)) with
       | .ok (k, rest) => .ok (k.setInverse false, rest)
       | .error e => .error e) := rfl

/-- Claim C9: after KEYWORD or UNKEYWORD and a space, a flag that is a
system flag makes the parse fail with NotParseable, and a non-system flag
parses into a search key carrying that flag as its filter. -/
theorem keyword_rejects_system_flags :
    ∀ (u : Bool) (s : List Char) (fl : Flag) (rest : List Char),
      parseFlag s = some (fl, rest) →
      (SearchKey.parse u (['K', 'E', 'Y', 'W', 'O', 'R', 'D', ' '] ++ s) =
        if fl.isSystem then .error .notParseable
        else .ok (.mk "KEYWORD" (.flag fl) false, rest)) ∧
      (SearchKey.parse u
          (['U', 'N', 'K', 'E', 'Y', 'W', 'O', 'R', 'D', ' '] ++ s) =
        if fl.isSystem then .error .notParseable
        else .ok (.mk "UNKEYWORD" (.flag fl) false, rest)) := by
  intro u s fl rest h
  have hsk := parseFlag_skipSpaces s fl rest h
  have hkw : keywordSub s =
      (if fl.isSystem then .error .notParseable else .ok (fl, rest)) := by
    unfold keywordSub
    simp only [h]
  constructor
  · unfold SearchKey.parse
    have hf1 : 2 * ((['K', 'E', 'Y', 'W', 'O', 'R', 'D', ' '] ++ s).length) + 4 =
        (2 * s.length + 19) + 1 := by
      simp only [List.length_append, List.length_cons, List.length_nil]
      omega
    rw [hf1, pkF_succ, keyBody_keyword_front, hsk, hkw]
    by_cases hsys : fl.isSystem
    · simp only [if_pos hsys, branchCont]
    · simp only [if_neg hsys, branchCont]
      rfl
  · unfold SearchKey.parse
    have hf1 : 2 * ((['U', 'N', 'K', 'E', 'Y', 'W', 'O', 'R', 'D', ' '] ++ s).length) + 4 =
        (2 * s.length + 23) + 1 := by
      simp only [List.length_append, List.length_cons, List.length_nil]
      omega
    rw [hf1, pkF_succ, keyBody_unkeyword_front, hsk, hkw]
    by_cases hsys : fl.isSystem
    · simp only [if_pos hsys, branchCont]
    · simp only [if_neg hsys, branchCont]
      rfl

/-- Witness instances of the C9 theorem: the system flag Seen is rejected,
a custom keyword parses. -/
theorem keyword_rejects_system_flags_witness :
    SearchKey.parse false
      (['K', 'E', 'Y', 'W', 'O', 'R', 'D', ' '] ++ ['\\', 'S', 'e', 'e', 'n']) =
      .error .notParseable ∧
    SearchKey.parse false
      (['U', 'N', 'K', 'E', 'Y', 'W', 'O', 'R', 'D', ' '] ++ ['f', 'o', 'o']) =
      .ok (.mk "UNKEYWORD" (.flag ⟨"foo"⟩) false, []) := by
  constructor
  · have := (keyword_rejects_system_flags false ['\\', 'S', 'e', 'e', 'n']
      ⟨String.mk ['\\', 'S', 'e', 'e', 'n']⟩ [] (by rfl)).1
    simpa using this
  · have := (keyword_rejects_system_flags false ['f', 'o', 'o']
      ⟨"foo"⟩ [] (by rfl)).2
    simpa using this

/-! ### Helper lemmas about the session model -/

theorem foldl_addRecent (l : List Nat) :
    ∀ v : SelectedView, l.foldl SelectedView.addRecent v =
      { v with recentUids := v.recentUids ∪ l.toFinset } := by
  induction l with
  | nil => intro v; simp
  | cons u t ih =>
    intro v
    simp only [List.foldl_cons, ih, SelectedView.addRecent]
    simp [Finset.union_insert, Finset.insert_union]

theorem foldl_addMessage_fields (l : List (Nat × Finset Flag)) :
    ∀ v : SelectedView,
      (l.foldl (fun v p => v.addMessage p.1 p.2) v).name = v.name ∧
      (l.foldl (fun v p => v.addMessage p.1 p.2) v).readonly = v.readonly ∧
      (l.foldl (fun v p => v.addMessage p.1 p.2) v).uidValidity = v.uidValidity ∧
      (l.foldl (fun v p => v.addMessage p.1 p.2) v).nextUid = v.nextUid ∧
      (l.foldl (fun v p => v.addMessage p.1 p.2) v).sessionTable = v.sessionTable ∧
      (l.foldl (fun v p => v.addMessage p.1 p.2) v).recentUids = v.recentUids ∧
      (l.foldl (fun v p => v.addMessage p.1 p.2) v).deleted = v.deleted := by
  induction l with
  | nil => intro v; simp
  | cons p t ih =>
    intro v
    simp only [List.foldl_cons]
    exact ih (v.addMessage p.1 p.2)

theorem mkAppended_length (h : Bool) :
    ∀ (u : Nat) (l : List (Finset Flag)), (mkAppended h u l).length = l.length := by
  intro u l
  induction l generalizing u with
  | nil => rfl
  | cons fs rest ih => simp [mkAppended, ih]

theorem mkAppended_uids (h : Bool) :
    ∀ (l : List (Finset Flag)) (u : Nat),
      (mkAppended h u l).map Msg.uid = List.range' u l.length := by
  intro l
  induction l with
  | nil => intro u; rfl
  | cons fs rest ih =>
    intro u
    simp [mkAppended, List.range'_succ, ih]

theorem mkAppended_recent (h : Bool) :
    ∀ (l : List (Finset Flag)) (u : Nat) (g : Msg),
      g ∈ mkAppended h u l → g.recent = !h := by
  intro l
  induction l with
  | nil => intro u g hg; cases hg
  | cons fs rest ih =>
    intro u g hg
    cases hg with
    | head => rfl
    | tail _ hg2 => exact ih (u + 1) g hg2

theorem mkCopied_length (h : Bool) :
    ∀ (l : List (Nat × Msg)) (u : Nat), (mkCopied h u l).length = l.length := by
  intro l
  induction l with
  | nil => intro u; rfl
  | cons p rest ih => intro u; simp [mkCopied, ih]

theorem mkCopied_recent (h : Bool) :
    ∀ (l : List (Nat × Msg)) (u : Nat) (g : Msg),
      g ∈ mkCopied h u l → g.recent = !h := by
  intro l
  induction l with
  | nil => intro u g hg; cases hg
  | cons p rest ih =>
    intro u g hg
    cases hg with
    | head => rfl
    | tail _ hg2 => exact ih (u + 1) g hg2

theorem appendLoop_spec (h : Bool) :
    ∀ (msgs : List (Finset Flag)) (m : MailboxState) (dv : Option SelectedView),
      appendLoop h m dv msgs =
        ({ m with msgs := m.msgs ++ mkAppended h m.nextUid msgs,
                  nextUid := m.nextUid + msgs.length },
         dv.map (fun v =>
           { v with recentUids :=
               v.recentUids ∪ (List.range' m.nextUid msgs.length).toFinset }),
         List.range' m.nextUid msgs.length,
         (List.range' m.nextUid msgs.length).map
           (fun u => BEvent.added m.name u (!h))) := by
  intro msgs
  induction msgs with
  | nil =>
    intro m dv
    simp [appendLoop, mkAppended]
  | cons fs rest ih =>
    intro m dv
    simp only [appendLoop, MailboxState.add, parseMessage, ih, List.length_cons,
      List.range'_succ, Prod.mk.injEq]
    refine ⟨?_, ?_, ?_, ?_⟩
    · simp [mkAppended, List.append_assoc, MailboxState.mk.injEq]
      omega
    · simp only [Option.map_map]
      rcases dv with _ | v
      · rfl
      · simp only [Option.map_some', Function.comp_apply, SelectedView.addRecent,
          Option.some.injEq]
        simp [Finset.union_insert, Finset.insert_union]
    · simp
    · simp

theorem copyLoop_spec (h : Bool) :
    ∀ (l : List (Nat × Nat × Option Msg)) (dest : MailboxState)
      (dv : Option SelectedView),
      copyLoop h dest dv l =
        ({ dest with
             msgs := dest.msgs ++ mkCopied h dest.nextUid (copyHits l),
             nextUid := dest.nextUid + (copyHits l).length },
         dv.map (fun v =>
           { v with recentUids := v.recentUids ∪
               (List.range' dest.nextUid (copyHits l).length).toFinset }),
         ((copyHits l).map Prod.fst).zip
           (List.range' dest.nextUid (copyHits l).length),
         (List.range' dest.nextUid (copyHits l).length).map
           (fun u => BEvent.added dest.name u (!h))) := by
  intro l
  induction l with
  | nil =>
    intro dest dv
    simp [copyLoop, copyHits, mkCopied]
  | cons t rest ih =>
    intro dest dv
    match ht : t.2.2 with
    | none =>
      have hch : copyHits (t :: rest) = copyHits rest := by
        simp [copyHits, ht]
      simp only [copyLoop, ht, ih, hch]
    | some g =>
      have hch : copyHits (t :: rest) = (t.2.1, g) :: copyHits rest := by
        simp [copyHits, ht]
      simp only [copyLoop, ht, MailboxState.add, ih, hch, List.length_cons,
        List.range'_succ, Prod.mk.injEq]
      refine ⟨?_, ?_, ?_, ?_⟩
      · simp [mkCopied, List.append_assoc, MailboxState.mk.injEq]
        omega
      · simp only [Option.map_map]
        rcases dv with _ | v
        · rfl
        · simp only [Option.map_some', Function.comp_apply, SelectedView.addRecent,
            Option.some.injEq]
          simp [Finset.union_insert, Finset.insert_union]
      · simp [List.zip_cons_cons, mkCopied]
      · simp

theorem getMailbox_name (store : Store) (name : String) (m : MailboxState)
    (h : getMailbox store name = some m) : m.name = name := by
  unfold getMailbox at h
  have := List.find?_some h
  simpa using this

theorem getMailbox_setMailbox (store : Store) (name : String)
    (x y : MailboxState) (hx : getMailbox store name = some x)
    (hy : y.name = name) :
    getMailbox (setMailbox store y) name = some y := by
  unfold getMailbox at hx
  unfold getMailbox setMailbox
  induction store with
  | nil => cases hx
  | cons a t ih =>
    by_cases ha : a.name = name
    · simp only [List.find?_cons, List.map_cons]
      rw [if_pos (by rw [ha, hy])]
      simp [hy]
    · simp only [List.find?_cons] at hx
      rw [decide_eq_false ha] at hx
      simp only [List.map_cons]
      rw [if_neg (by rw [hy]; exact ha)]
      simp only [List.find?_cons]
      rw [decide_eq_false ha]
      exact ih hx

theorem getOrCreate_found (store : Store) (name : String) (m : MailboxState)
    (h : getMailbox store name = some m) : getOrCreate store name = (m, store) := by
  unfold getOrCreate
  rw [h]

theorem freshMailbox_name (name : String) : (freshMailbox name).name = name := rfl

theorem getOrCreate_get (store : Store) (name : String) (m : MailboxState)
    (s2 : Store) (h : getOrCreate store name = (m, s2)) :
    getMailbox s2 name = some m ∧ m.name = name := by
  unfold getOrCreate at h
  cases hg : getMailbox store name with
  | some x =>
    rw [hg] at h
    simp only [Prod.mk.injEq] at h
    obtain ⟨rfl, rfl⟩ := h
    exact ⟨hg, getMailbox_name store name x hg⟩
  | none =>
    rw [hg] at h
    simp only [Prod.mk.injEq] at h
    obtain ⟨rfl, rfl⟩ := h
    constructor
    · unfold getMailbox at hg ⊢
      rw [List.find?_append, hg]
      simp [freshMailbox]
    · rfl

/-- The refreshed view when the resolved mailbox matches the view's name:
uid validity and next uid are copied and items() streamed through
add_messages.  Shared helper for the session claims. -/
theorem loadUpdates_some_match (v : SelectedView) (m : MailboxState)
    (store : Store) (h : v.name = m.name) :
    loadUpdates (some v) (some m) store =
      some ((m.items).foldl (fun v p => v.addMessage p.1 p.2)
        { v with uidValidity := m.uidValidity, nextUid := m.nextUid }) := by
  unfold loadUpdates
  dsimp only
  rw [if_pos h]

/-! ### Claims about the session engine -/

/-- Claim C3: the refresh step.  With no active view nothing is returned;
if the command did not already identify the view's mailbox, the name is
re-resolved and a failed resolution turns the view into a tombstone,
changing nothing but the deleted bit and raising nothing; otherwise
uid_validity and next_uid are copied from the backend mailbox and
add_messages is applied to every (uid, permanent flags) pair of
items(). -/
theorem load_updates_spec :
    (∀ (mbx : Option MailboxState) (store : Store),
      loadUpdates none mbx store = none) ∧
    (∀ (sel : SelectedView) (mbx : Option MailboxState) (store : Store),
      (∀ m, mbx = some m → ¬sel.name = m.name) →
      getMailbox store sel.name = none →
      loadUpdates (some sel) mbx store = some { sel with deleted := true }) ∧
    (∀ (sel : SelectedView) (m : MailboxState) (store : Store),
      sel.name = m.name →
      loadUpdates (some sel) (some m) store =
        some ((m.items).foldl (fun v p => v.addMessage p.1 p.2)
          { sel with uidValidity := m.uidValidity, nextUid := m.nextUid })) ∧
    (∀ (sel : SelectedView) (mbx : Option MailboxState) (m : MailboxState)
        (store : Store),
      (∀ m0, mbx = some m0 → ¬sel.name = m0.name) →
      getMailbox store sel.name = some m →
      loadUpdates (some sel) mbx store =
        some ((m.items).foldl (fun v p => v.addMessage p.1 p.2)
          { sel with uidValidity := m.uidValidity, nextUid := m.nextUid })) := by
  refine ⟨fun mbx store => rfl, ?_, ?_, ?_⟩
  · intro sel mbx store hne hget
    unfold loadUpdates
    cases mbx with
    | none =>
      dsimp only
      rw [hget]
      rfl
    | some m0 =>
      dsimp only
      rw [if_neg (hne m0 rfl), hget]
      rfl
  · intro sel m store hname
    exact loadUpdates_some_match sel m store hname
  · intro sel mbx m store hne hget
    unfold loadUpdates
    cases mbx with
    | none =>
      dsimp only
      rw [hget]
    | some m0 =>
      dsimp only
      rw [if_neg (hne m0 rfl), hget]

/-- Witness instances of the C3 theorem: a dangling view becomes a
tombstone, a resolved view takes the mailbox's uid data. -/
theorem load_updates_spec_witness :
    loadUpdates (some ⟨"A", false, 0, 0, [], [], ∅, ∅, false⟩) none [] =
      some ⟨"A", false, 0, 0, [], [], ∅, ∅, true⟩ ∧
    loadUpdates (some ⟨"B", false, 0, 0, [], [], ∅, ∅, false⟩)
      (some (freshMailbox "B")) [] =
      some ⟨"B", false, 1, 1, [], [], ∅, ∅, false⟩ := by
  constructor
  · have := load_updates_spec.2.1 ⟨"A", false, 0, 0, [], [], ∅, ∅, false⟩ none []
      (fun m hm => by cases hm) rfl
    simpa using this
  · have := load_updates_spec.2.2.1 ⟨"B", false, 0, 0, [], [], ∅, ∅, false⟩
      (freshMailbox "B") [] rfl
    simpa using this

/-- Claim C4: APPEND to a read-only mailbox, and EXPUNGE or STORE on a
read-only view, fail with MailboxReadOnly; the store is unchanged and the
trace is empty, so no backend mutation occurs. -/
theorem readonly_rejected :
    (∀ (store : Store) (name : String) (msgs : List (Finset Flag))
        (sel : Option SelectedView) (m : MailboxState),
      getMailbox store name = some m → m.readonly = true →
      appendMessages store name msgs sel =
        (.error (.mailboxReadOnly name), store, [])) ∧
    (∀ (store : Store) (sel : SelectedView) (us : Option SequenceSet),
      sel.readonly = true →
      expungeMailbox store sel us =
        (.error (.mailboxReadOnly sel.name), store, [])) ∧
    (∀ (store : Store) (sel : SelectedView) (ss : SequenceSet)
        (fs : Finset Flag) (mode : FlagOp),
      sel.readonly = true →
      updateFlags store sel ss fs mode =
        (.error (.mailboxReadOnly sel.name), store, [])) := by
  refine ⟨?_, ?_, ?_⟩
  · intro store name msgs sel m hget hro
    unfold appendMessages
    rw [getOrCreate_found store name m hget]
    simp [hro]
  · intro store sel us hro
    unfold expungeMailbox
    rw [if_pos hro]
  · intro store sel ss fs mode hro
    unfold updateFlags
    rw [if_pos hro]

/-- Witness instances of the C4 theorem at a concrete read-only mailbox
and view. -/
theorem readonly_rejected_witness :
    appendMessages [{ freshMailbox "R" with readonly := true }] "R" [] none =
      (.error (.mailboxReadOnly "R"),
        [{ freshMailbox "R" with readonly := true }], []) ∧
    expungeMailbox [] ⟨"R", true, 0, 0, [], [], ∅, ∅, false⟩ none =
      (.error (.mailboxReadOnly "R"), [], []) ∧
    updateFlags [] ⟨"R", true, 0, 0, [], [], ∅, ∅, false⟩
      (SequenceSet.allSet false) ∅ FlagOp.replace =
      (.error (.mailboxReadOnly "R"), [], []) := by
  refine ⟨?_, ?_, ?_⟩
  · exact readonly_rejected.1 _ "R" [] none _ (by rfl) rfl
  · exact readonly_rejected.2.1 _ _ none rfl
  · exact readonly_rejected.2.2 _ _ _ ∅ FlagOp.replace rfl

/-- Claim C10: every successful append, expunge, copy and store signals
the destination's update event exactly once, immediately before the
refresh, with no update-event signal earlier in the trace, also when no
message was affected. -/
theorem update_event_once :
    (∀ (store : Store) (name : String) (msgs : List (Finset Flag))
        (sel : Option SelectedView) (res : AppendUid × Option SelectedView),
      (appendMessages store name msgs sel).1 = .ok res →
      ∃ pre, (appendMessages store name msgs sel).2.2 =
          pre ++ [.updatedSet name, .refreshed] ∧ pre.countP isUpd = 0) ∧
    (∀ (store : Store) (sel : SelectedView) (us : Option SequenceSet)
        (res : Option SelectedView),
      (expungeMailbox store sel us).1 = .ok res →
      ∃ pre, (expungeMailbox store sel us).2.2 =
          pre ++ [.updatedSet sel.name, .refreshed] ∧ pre.countP isUpd = 0) ∧
    (∀ (store : Store) (sel : SelectedView) (ss : SequenceSet)
        (mailbox : String) (res : CopyUid × Option SelectedView),
      (copyMessages store sel ss mailbox).1 = .ok res →
      ∃ pre, (copyMessages store sel ss mailbox).2.2 =
          pre ++ [.updatedSet mailbox, .refreshed] ∧ pre.countP isUpd = 0) ∧
    (∀ (store : Store) (sel : SelectedView) (ss : SequenceSet)
        (fs : Finset Flag) (mode : FlagOp)
        (res : List (Nat × Nat × Finset Flag) × Option SelectedView),
      (updateFlags store sel ss fs mode).1 = .ok res →
      ∃ pre, (updateFlags store sel ss fs mode).2.2 =
          pre ++ [.updatedSet sel.name, .refreshed] ∧ pre.countP isUpd = 0) := by
  refine ⟨?_, ?_, ?_, ?_⟩
  · intro store name msgs sel res h
    simp only [appendMessages] at h ⊢
    by_cases hro : (getOrCreate store name).1.readonly
    · rw [if_pos hro] at h
      cases h
    · rw [if_neg hro] at h ⊢
      refine ⟨_, rfl, ?_⟩
      rw [appendLoop_spec]
      simp only [List.countP_map]
      exact List.countP_eq_zero.mpr (fun a _ => by simp [Function.comp, isUpd])
  · intro store sel us res h
    simp only [expungeMailbox] at h ⊢
    by_cases hro : sel.readonly
    · rw [if_pos hro] at h
      cases h
    · rw [if_neg hro] at h ⊢
      cases hget : getMailbox store sel.name with
      | none =>
        rw [hget] at h
        cases h
      | some mbx =>
        rw [hget] at h
        dsimp only at h ⊢
        have hname := getMailbox_name store sel.name mbx hget
        rw [← hname]
        refine ⟨[_], rfl, ?_⟩
        simp [isUpd]
  · intro store sel ss mailbox res h
    simp only [copyMessages] at h ⊢
    cases hget : getMailbox store sel.name with
    | none =>
      rw [hget] at h
      cases h
    | some mbx =>
      rw [hget] at h
      dsimp only at h ⊢
      by_cases hro : (getOrCreate store mailbox).1.readonly
      · rw [if_pos hro] at h
        cases h
      · rw [if_neg hro] at h ⊢
        refine ⟨_, rfl, ?_⟩
        rw [copyLoop_spec]
        simp only [List.countP_map]
        exact List.countP_eq_zero.mpr (fun a _ => by simp [Function.comp, isUpd])
  · intro store sel ss fs mode res h
    simp only [updateFlags] at h ⊢
    by_cases hro : sel.readonly
    · rw [if_pos hro] at h
      cases h
    · rw [if_neg hro] at h ⊢
      cases hget : getMailbox store sel.name with
      | none =>
        rw [hget] at h
        cases h
      | some mbx =>
        rw [hget] at h
        dsimp only at h ⊢
        have hname := getMailbox_name store sel.name mbx hget
        rw [← hname]
        refine ⟨[_], rfl, ?_⟩
        simp [isUpd]

/-- Witness instance of the C10 theorem: an append of zero messages to a
newly created mailbox still signals the update event exactly once. -/
theorem update_event_once_witness :
    ∃ pre, (appendMessages [] "M" [] none).2.2 =
        pre ++ [.updatedSet "M", .refreshed] ∧ pre.countP isUpd = 0 :=
  update_event_once.1 [] "M" [] none (⟨1, []⟩, none) (by rfl)

/-- Claim C5: recent ownership on APPEND and COPY.  Messages are stored
with the recent bit set exactly when no live view exists on the
destination (the session's own view on the destination, else the
mailbox's any-selected view); when a live view exists, the stored recent
bit is clear and that view's session-recent set gains every new uid. -/
theorem append_copy_recent :
    (∀ (store : Store) (name : String) (msgs : List (Finset Flag))
        (sel : Option SelectedView) (mbx : MailboxState) (store2 : Store),
      getOrCreate store name = (mbx, store2) → mbx.readonly = false →
      (∃ m4, getMailbox (appendMessages store name msgs sel).2.1 name = some m4 ∧
        m4.msgs = mbx.msgs ++
          mkAppended (findSelected sel mbx).isSome mbx.nextUid msgs) ∧
      (∀ g ∈ mkAppended (findSelected sel mbx).isSome mbx.nextUid msgs,
        g.recent = !(findSelected sel mbx).isSome) ∧
      (∀ s, sel = some s → s.name = mbx.name →
        ∃ au v2, (appendMessages store name msgs sel).1 = .ok (au, some v2) ∧
          v2.recentUids = s.recentUids ∪
            (List.range' mbx.nextUid msgs.length).toFinset) ∧
      (∀ v, (∀ s, sel = some s → ¬s.name = mbx.name) → mbx.otherView = some v →
        ∃ m4 v2,
          getMailbox (appendMessages store name msgs sel).2.1 name = some m4 ∧
          m4.otherView = some v2 ∧
          v2.recentUids = v.recentUids ∪
            (List.range' mbx.nextUid msgs.length).toFinset)) ∧
    (∀ (store : Store) (sel : SelectedView) (ss : SequenceSet)
        (mailbox : String) (mbx dest : MailboxState) (store2 : Store),
      getMailbox store sel.name = some mbx →
      getOrCreate store mailbox = (dest, store2) → dest.readonly = false →
      (∃ d4, getMailbox (copyMessages store sel ss mailbox).2.1 mailbox = some d4 ∧
        d4.msgs = dest.msgs ++
          mkCopied (findSelected (some sel) dest).isSome dest.nextUid
            (copyHits (mbx.find ss))) ∧
      (∀ g ∈ mkCopied (findSelected (some sel) dest).isSome dest.nextUid
          (copyHits (mbx.find ss)),
        g.recent = !(findSelected (some sel) dest).isSome) ∧
      (sel.name = dest.name →
        ∃ cu v2, (copyMessages store sel ss mailbox).1 = .ok (cu, some v2) ∧
          v2.recentUids = sel.recentUids ∪
            (List.range' dest.nextUid (copyHits (mbx.find ss)).length).toFinset) ∧
      (∀ v, ¬sel.name = dest.name → dest.otherView = some v →
        ∃ d4 v2,
          getMailbox (copyMessages store sel ss mailbox).2.1 mailbox = some d4 ∧
          d4.otherView = some v2 ∧
          v2.recentUids = v.recentUids ∪
            (List.range' dest.nextUid
              (copyHits (mbx.find ss)).length).toFinset)) := by
  constructor
  · intro store name msgs sel mbx store2 hgc hro
    obtain ⟨hget2, hname⟩ := getOrCreate_get store name mbx store2 hgc
    unfold appendMessages
    rw [hgc]
    dsimp only
    rw [if_neg (by simp [hro])]
    rw [appendLoop_spec]
    dsimp only
    refine ⟨?_, ?_, ?_, ?_⟩
    · exact ⟨_, getMailbox_setMailbox store2 name mbx _ hget2
        (by split <;> exact hname), by split <;> rfl⟩
    · exact fun g hg =>
        mkAppended_recent (findSelected sel mbx).isSome msgs mbx.nextUid g hg
    · rintro s rfl hsn
      have hD : findSelected (some s) mbx = some s := by
        simp [findSelected, hsn]
      rw [hD]
      dsimp only
      have hOwn : decide (s.name = mbx.name) = true := by simp [hsn]
      simp only [if_pos hOwn, Option.map_some']
      rw [loadUpdates_some_match]
      · refine ⟨_, _, rfl, ?_⟩
        rw [(foldl_addMessage_fields _ _).2.2.2.2.2.1]
      · exact hsn
    · intro v hno hov
      rcases sel with _ | s
      · have hD : findSelected none mbx = some v := by
          simp [findSelected, hov]
        rw [hD]
        exact ⟨_, _, getMailbox_setMailbox store2 name mbx _ hget2 hname,
          rfl, rfl⟩
      · have hns := hno s rfl
        have hD : findSelected (some s) mbx = some v := by
          simp [findSelected, hns, hov]
        rw [hD]
        dsimp only
        have hOwn : ¬(decide (s.name = mbx.name) = true) := by simp [hns]
        simp only [if_neg hOwn]
        exact ⟨_, _, getMailbox_setMailbox store2 name mbx _ hget2 hname,
          rfl, rfl⟩
  · intro store sel ss mailbox mbx dest store2 hgetm hgc hro
    obtain ⟨hget2, hname⟩ := getOrCreate_get store mailbox dest store2 hgc
    unfold copyMessages
    rw [hgetm]
    dsimp only
    rw [hgc]
    dsimp only
    rw [if_neg (by simp [hro])]
    rw [copyLoop_spec]
    dsimp only
    refine ⟨?_, ?_, ?_, ?_⟩
    · exact ⟨_, getMailbox_setMailbox store2 mailbox dest _ hget2
        (by split <;> exact hname), by split <;> rfl⟩
    · exact fun g hg =>
        mkCopied_recent (findSelected (some sel) dest).isSome
          (copyHits (mbx.find ss)) dest.nextUid g hg
    · intro hsn
      have hD : findSelected (some sel) dest = some sel := by
        simp [findSelected, hsn]
      rw [hD]
      have hOwn : decide (sel.name = dest.name) = true := by simp [hsn]
      have hsnm : sel.name = mailbox := hsn.trans hname
      simp only [if_pos hOwn, if_pos hsnm, Option.map_some']
      rw [loadUpdates_some_match]
      · refine ⟨_, _, rfl, ?_⟩
        rw [(foldl_addMessage_fields _ _).2.2.2.2.2.1]
      · exact hsn
    · intro v hns hov
      have hD : findSelected (some sel) dest = some v := by
        simp [findSelected, hns, hov]
      rw [hD]
      have hOwn : ¬(decide (sel.name = dest.name) = true) := by simp [hns]
      simp only [if_neg hOwn]
      exact ⟨_, _, getMailbox_setMailbox store2 mailbox dest _ hget2 hname,
        rfl, rfl⟩

/-- Witness instance of the C5 theorem: an append to a fresh mailbox with
no view stores the message, with mkAppended giving recent = true there. -/
theorem append_copy_recent_witness :
    ∃ m4, getMailbox (appendMessages [] "M" [{Seen}] none).2.1 "M" = some m4 ∧
      m4.msgs = (freshMailbox "M").msgs ++
        mkAppended (findSelected none (freshMailbox "M")).isSome
          (freshMailbox "M").nextUid [{Seen}] :=
  (append_copy_recent.1 [] "M" [{Seen}] none (freshMailbox "M")
    [freshMailbox "M"] (by rfl) rfl).1

/-- Claim C8: a successful APPEND returns APPENDUID with the destination's
uid_validity and the uids assigned to the appended messages in order; a
successful COPY returns COPYUID with the destination's uid_validity and
the (source uid, destination uid) pairs. -/
theorem uidvalidity_response :
    (∀ (store : Store) (name : String) (msgs : List (Finset Flag))
        (sel : Option SelectedView) (mbx : MailboxState) (store2 : Store),
      getOrCreate store name = (mbx, store2) → mbx.readonly = false →
      (∃ rv, (appendMessages store name msgs sel).1 =
        .ok (⟨mbx.uidValidity, List.range' mbx.nextUid msgs.length⟩, rv)) ∧
      (mkAppended (findSelected sel mbx).isSome mbx.nextUid msgs).map Msg.uid =
        List.range' mbx.nextUid msgs.length) ∧
    (∀ (store : Store) (sel : SelectedView) (ss : SequenceSet)
        (mailbox : String) (mbx dest : MailboxState) (store2 : Store),
      getMailbox store sel.name = some mbx →
      getOrCreate store mailbox = (dest, store2) → dest.readonly = false →
      ∃ rv, (copyMessages store sel ss mailbox).1 =
        .ok (⟨dest.uidValidity,
          ((copyHits (mbx.find ss)).map Prod.fst).zip
            (List.range' dest.nextUid (copyHits (mbx.find ss)).length)⟩, rv)) := by
  constructor
  · intro store name msgs sel mbx store2 hgc hro
    refine ⟨?_, mkAppended_uids _ msgs mbx.nextUid⟩
    unfold appendMessages
    rw [hgc]
    dsimp only
    rw [if_neg (by simp [hro])]
    rw [appendLoop_spec]
    exact ⟨_, rfl⟩
  · intro store sel ss mailbox mbx dest store2 hgetm hgc hro
    unfold copyMessages
    rw [hgetm]
    dsimp only
    rw [hgc]
    dsimp only
    rw [if_neg (by simp [hro])]
    rw [copyLoop_spec]
    exact ⟨_, rfl⟩

/-- Witness instance of the C8 theorem: appending two messages to a fresh
mailbox returns uid validity 1 and uids 1, 2. -/
theorem uidvalidity_response_witness :
    (∃ rv, (appendMessages [] "M" [∅, {Seen}] none).1 =
      .ok (⟨(freshMailbox "M").uidValidity,
        List.range' (freshMailbox "M").nextUid
          ([∅, {Seen}] : List (Finset Flag)).length⟩, rv)) ∧
    (mkAppended (findSelected none (freshMailbox "M")).isSome
        (freshMailbox "M").nextUid ([∅, {Seen}] : List (Finset Flag))).map
        Msg.uid =
      List.range' (freshMailbox "M").nextUid
        ([∅, {Seen}] : List (Finset Flag)).length :=
  uidvalidity_response.1 [] "M" ([∅, {Seen}] : List (Finset Flag)) none
    (freshMailbox "M") [freshMailbox "M"] (by rfl) rfl

/-- Claim C2 fails against the source: on a writable view, the update
loop computes the permitted-restricted permanent flags, the full-set
session-flag update and the (seq, uid, effective flags) triples as the
spec says, but session.py line 263 passes those triples to save_flags
instead of the changed message objects; under the backend contract
save_flags(msgs...) nothing is persisted, so the stored message keeps
its old permanent flags while the caller is told the flag was set. -/
theorem update_flags_triples_not_persisted :
    (updateFlags inboxStore inboxView ⟨[.single (some 1)], false⟩ {Seen}
        .add).2.2 =
      [.savedFlagsTriples "INBOX" [(1, 1, {Seen})],
       .updatedSet "INBOX", .refreshed] ∧
    (∃ m2,
      getMailbox (updateFlags inboxStore inboxView ⟨[.single (some 1)], false⟩
          {Seen} .add).2.1 "INBOX" = some m2 ∧
      m2.msgs.map Msg.permanentFlags = [∅]) ∧
    (∃ v2,
      (updateFlags inboxStore inboxView ⟨[.single (some 1)], false⟩ {Seen}
          .add).1 = .ok ([(1, 1, {Seen})], some v2) ∧
      v2.sessionFlagsOf 1 = {Seen}) := by
  refine ⟨rfl, ⟨_, rfl, rfl⟩, ⟨_, rfl, rfl⟩⟩

/-- Claim C7 fails against the source: on a writable view with a
set_seen attribute, fetch_messages adds Seen to each loaded match and
returns the (seq, message) pairs as the spec says, but session.py line
192 passes the generator expression itself to save_flags as one
argument instead of unpacking the messages; under the backend contract
save_flags(msgs...) nothing is persisted, so the store is unchanged. -/
theorem fetch_seen_not_persisted :
    (fetchMessages inboxStore inboxView ⟨[.single (some 1)], false⟩
        [⟨true⟩]).2.2 =
      [.savedFlagsIterableArg "INBOX"
        [{ uid := 1, permanentFlags := {Seen}, recent := false,
           loadable := true }],
       .refreshed] ∧
    (fetchMessages inboxStore inboxView ⟨[.single (some 1)], false⟩
        [⟨true⟩]).2.1 = inboxStore ∧
    (∃ v2,
      (fetchMessages inboxStore inboxView ⟨[.single (some 1)], false⟩
          [⟨true⟩]).1 =
        .ok ([(1, { uid := 1, permanentFlags := {Seen}, recent := false,
                    loadable := true })], some v2)) := by
  refine ⟨rfl, rfl, ⟨_, rfl⟩⟩

/-- The claim C1 as stated would require this SEQSET key to need NONE; the
source gives METADATA. -/
theorem seqset_requirement_metadata :
    (SearchKey.mk "SEQSET" (.seqset ⟨[.single (some 1)], false⟩) false).requirement
      = some FetchRequirement.METADATA ∧
    FetchRequirement.METADATA ≠ FetchRequirement.NONE := by
  constructor
  · simp [SearchKey.requirement]
  · decide

/-- Claim C1, amended: the requirement annotation follows the spec table
except that SEQSET requires METADATA: ALL requires NONE; KEYSET and OR
require the max reduction of their children; the date-sent, header, address
and subject keys require HEADERS; BODY and TEXT require BODY; every other
key, SEQSET included, requires METADATA. -/
theorem requirement_follows_spec_table (k : SearchKey) :
    k.requirement = specRequirement k := by
  obtain ⟨key, f, i⟩ := k
  cases f <;>
    · simp only [SearchKey.requirement, specRequirement]
      by_cases hall : key = "ALL"
      · simp [hall]
      · by_cases hseq : key = "SEQSET"
        · subst hseq
          simp [hall]
        · simp [hall, hseq]

end Pymap
